import Mathlib

/-!
# bzz/netstore.go: the distributed chunk store

A shallow embedding of `netStore` (src/bzz/netstore.go) and theorems about it.

Conventions of the embedding.

* A Go pointer to a cached chunk is the cache entry stored under the chunk's key (the
  source assumes "that a returned chunk is the one stored in the memory cache"):
  an assignment through the pointer (`chunk.SData = ...`, `chunk.req.status = ...`)
  is written back to the cache with `localStore.set`.
* A nil pointer / nil slice is `none`. A byte slice that is not nil is a `Slice`: its
  `len` elements and the elements of its backing array up to `cap`, which the slice
  expression `s[0:8]` may reach.
* `time.Time` is an `Int` (nanoseconds), `Add` is `+`, `Before` is `<`, `After` is `>`.
  Every call site of `time.Now()` is a parameter of the operation that contains it.
* `hive.getPeers` is a parameter (`hive`), as is the random id of `generateId`.
* Messages handed to a peer (also the ones handed to a goroutine with `go`) are
  collected, in program order, in the list `Result.sent`.
* A run-time panic stops the operation: `Result.panic` names it and `Result.self`
  is the store as the panic left it.
* `Get` is split at its `select`: `netStore.Get` is the part before it,
  `netStore.GetSelect` one case of the `select` and `netStore.GetWait` the `select` as it
  blocks while other operations run.
-/

namespace bzz

/-! ## Data model -/

/-- Content hash of a chunk: a byte string compared by equality. -/
abbrev Key := List Nat

/-- An instant, in nanoseconds. -/
abbrev Time := Int

/-- Modelled from the spec: the peer handle (its declaration is not in netstore.go).
`addr` is what `Addr()` returns; `conn` tells apart two handles with one address. -/
structure peer where
  conn : Nat
  addr : Nat
deriving DecidableEq, Repr, Inhabited

/-- Modelled from the spec: what `peer.peerAddr()` returns, the endpoint of a peer. -/
structure peerAddr where
  addr : Nat
deriving DecidableEq, Repr

/-- The `peer.peerAddr()` of a peer handle. -/
def peer.peerAddr (p : peer) : peerAddr := ⟨p.addr⟩

/-- A Go byte slice that is not nil: `bytes` are its `len` elements, `spare` the elements of
its backing array between `len` and `cap` (a slice expression may reach them). -/
structure Slice where
  bytes : List Nat
  spare : List Nat
deriving DecidableEq, Repr

/-- The length `len(s)` of a slice. -/
def Slice.len (s : Slice) : Nat := s.bytes.length

/-- The capacity `cap(s)` of a slice. -/
def Slice.cap (s : Slice) : Nat := s.bytes.length + s.spare.length

/-- The retrieve request message (RetrieveAsk); fields as netstore.go uses them.
`Id` is a uint64, `timeout` a `*time.Time`; `MaxPeers`, declared outside netstore.go, is
taken to be a uint64 as `Id` is. -/
structure retrieveRequestMsgData where
  Key : Key
  Id : Nat
  MaxPeers : Nat
  timeout : Option Time
  peer : peer
deriving DecidableEq, Repr

/-- The store request message (StoreMessage); fields as netstore.go uses them.
`peer` is the pointer that `addStoreRequest` copies into `Chunk.source`. -/
structure storeRequestMsgData where
  Key : Key
  Id : Nat
  SData : Option Slice
  requestTimeout : Option Time
  peer : Option peer
deriving DecidableEq, Repr

/-- The peers message (PeersOffer); fields as `netStore.peers` fills them. -/
structure peersMsgData where
  Peers : List peerAddr
  Key : Key
  Id : Nat
  timeout : Option Time
deriving DecidableEq, Repr

/-- Request status values: `reqSearching = iota`. -/
def reqSearching : Int := 0

/-- Request status values: `reqFound`. -/
def reqFound : Int := 1

/-- The constant `requesterCount`. -/
def requesterCount : Int := 3

/-- One `time.Second`, in nanoseconds. -/
def second : Int := 1000000000

/-- The variable `searchTimeout = 3 * time.Second`. -/
def searchTimeout : Int := 3 * second

/-- The struct `requestStatus`. `requesters` is the Go map `map[int64][]*retrieveRequestMsgData`
as an association list (one pair per key; the list order stands for the unspecified
iteration order of the map). `C` is the channel: `true` once it has been closed. -/
structure requestStatus where
  key : Key
  status : Int
  requesters : List (Int × List retrieveRequestMsgData)
  C : Bool
deriving DecidableEq, Repr

/-- The struct `Chunk`, with the fields netstore.go uses. -/
structure Chunk where
  Key : Key
  SData : Option Slice
  Size : Int
  source : Option peer
  req : Option requestStatus
deriving DecidableEq, Repr

/-- Modelled from the spec: the chunk cache `localStore` (its code is not in netstore.go):
a key-value store with upsert `Put` and `Get`, in which a content-less placeholder is
distinct from an absent key. No entry is ever evicted. -/
structure localStore where
  chunks : List Chunk
deriving DecidableEq, Repr

/-- Modelled from the spec: `localStore.Get(key)`, the entry stored under `key`
(`none` is the not-found error). -/
def localStore.Get (ls : localStore) (key : Key) : Option Chunk :=
  ls.chunks.find? (fun c => decide (c.Key = key))

/-- Upsert in a list of chunks keyed by `Chunk.Key`. -/
def upsert : List Chunk → Chunk → List Chunk
  | [], c => [c]
  | d :: rest, c => if d.Key = c.Key then c :: rest else d :: upsert rest c

/-- Modelled from the spec: `localStore.Put(chunk)`, upsert under the chunk's key. -/
def localStore.Put (ls : localStore) (c : Chunk) : localStore :=
  ⟨upsert ls.chunks c⟩

/-- Modelled from the spec: `localStore.memStore.Put(chunk)`, upsert in the memory tier. -/
def localStore.memStorePut (ls : localStore) (c : Chunk) : localStore :=
  ls.Put c

/-- An assignment through a pointer to a cached chunk: the entry under the chunk's key
becomes `c`. -/
def localStore.set (ls : localStore) (c : Chunk) : localStore :=
  ls.Put c

/-- Modelled from the spec: the peer discovery `hive.getPeers(key, max)`. -/
abbrev hive := Key → Int → List peer

/-- The struct `netStore`: the chunk cache (the hive is a parameter of the operations). -/
structure netStore where
  localStore : localStore
deriving DecidableEq, Repr

/-- The store before any operation. -/
def netStore.empty : netStore := ⟨⟨[]⟩⟩

/-- What an operation hands to a peer (`storeRequest` is the announce, `retrieve` the
RetrieveAsk, `store` the StoreMessage, `peers` the PeersOffer), and `close key`: the
statement `close(entry.req.C)` ran on the record of `key` (on a closed channel it panics). -/
inductive Event where
  | storeRequest (dst : peer) (key : Key)
  | retrieve (dst : peer) (req : retrieveRequestMsgData)
  | store (dst : peer) (msg : storeRequestMsgData)
  | peers (dst : peer) (msg : peersMsgData)
  | close (key : Key)
deriving DecidableEq, Repr

/-- Run-time panics of the Go code. -/
inductive Panic where
  | closeOfClosedChannel
  | nilDereference
  | sliceBounds
deriving DecidableEq, Repr

/-- The outcome of an operation: the store after it, what it sent, whether it panicked,
and whether it ran holding `self.lock`. -/
structure Result where
  self : netStore
  sent : List Event
  panic : Option Panic
  locked : Bool
deriving DecidableEq, Repr

/-- The error `notFound`. -/
inductive Error where
  | notFound
deriving DecidableEq, Repr

/-! ## Machine integers -/

/-- The conversion `int64(x)` of a uint64. -/
def toInt64 (x : Nat) : Int :=
  if x % 2 ^ 64 < 2 ^ 63 then ((x % 2 ^ 64 : Nat) : Int) else ((x % 2 ^ 64 : Nat) : Int) - 2 ^ 64

/-- The conversion `uint64(x)` of an int64. -/
def toUint64 (x : Int) : Nat :=
  (x % 2 ^ 64).toNat

/-- The conversion `int(x)` of a uint64; `int` is taken to be 64 bits wide. -/
def toInt (x : Nat) : Int := toInt64 x

/-- The value of a byte: an element of a byte slice, below 256. -/
def byteAt (b : List Nat) (i : Nat) : Nat := b.getD i 0 % 256

/-- The call `binary.LittleEndian.Uint64(b)` of Go's standard library:
`uint64(b[0]) | uint64(b[1])<<8 | ... | uint64(b[7])<<56` (the shifted bytes do not overlap,
so the bitwise or is their sum). -/
def littleEndianUint64 (b : List Nat) : Nat :=
  byteAt b 0 + byteAt b 1 * 2 ^ 8 + byteAt b 2 * 2 ^ 16 + byteAt b 3 * 2 ^ 24
    + byteAt b 4 * 2 ^ 32 + byteAt b 5 * 2 ^ 40 + byteAt b 6 * 2 ^ 48 + byteAt b 7 * 2 ^ 56

/-- The slice expression `s[0:8]`: the first 8 elements of the backing array; `none` is the
panic of Go when 8 exceeds the capacity. -/
def Slice.first8 (s : Slice) : Option (List Nat) :=
  if s.cap < 8 then none else some ((s.bytes ++ s.spare).take 8)

/-- The expression `int64(binary.LittleEndian.Uint64(SData[0:8]))`; `none` when the slice
expression panics: a nil slice (capacity 0), or a capacity below 8. -/
def decodeSize (SData : Option Slice) : Option Int :=
  match SData with
  | none => none
  | some s =>
    match s.first8 with
    | none => none
    | some b => some (toInt64 (littleEndianUint64 b))

/-! ## The Go map `requesters` -/

/-- The map read `m[id]`: the nil slice when the key is absent. -/
def mapGet (m : List (Int × List retrieveRequestMsgData)) (id : Int) : List retrieveRequestMsgData :=
  match m with
  | [] => []
  | (k, v) :: rest => if k = id then v else mapGet rest id

/-- The map write `m[id] = v`. -/
def mapSet (m : List (Int × List retrieveRequestMsgData)) (id : Int)
    (v : List retrieveRequestMsgData) : List (Int × List retrieveRequestMsgData) :=
  match m with
  | [] => [(id, v)]
  | (k, w) :: rest => if k = id then (k, v) :: rest else (k, w) :: mapSet rest id v

/-! ## The operations of netstore.go -/

/-- The constructor `newRequestStatus()`: status 0 (`reqSearching`), an empty map, an open channel. -/
def newRequestStatus : requestStatus :=
  { key := [], status := 0, requesters := [], C := false }

/-- The method `netStore.store(chunk)`: announce the key to the peers of the hive other than
the chunk's source. -/
def netStore.store (h : hive) (chunk : Chunk) : List Event :=
  (h chunk.Key 0).filterMap (fun p =>
    match chunk.source with
    | none => some (Event.storeRequest p chunk.Key)
    | some src => if p.addr ≠ src.addr then some (Event.storeRequest p chunk.Key) else none)

/-- The inner loop of `propagateResponse` (lines 288-297) over the requesters of one id,
with the running `counter`. A requester with a nil `timeout` panics at `req.timeout.After`. -/
def propagateLoop (msg : storeRequestMsgData) (now : Time) :
    Int → List retrieveRequestMsgData → List Event × Option Panic
  | _, [] => ([], none)
  | counter, req :: rest =>
    match req.timeout with
    | none => ([], some Panic.nilDereference)
    | some t =>
      if t > now then
        if counter - 1 ≤ 0 then ([Event.store req.peer msg], none)
        else
          let r := propagateLoop msg now (counter - 1) rest
          (Event.store req.peer msg :: r.1, r.2)
      else propagateLoop msg now counter rest

/-- The outer loop of `propagateResponse` (lines 280-298) over the entries of the map. -/
def propagateIds (chunk : Chunk) (now : Time) :
    List (Int × List retrieveRequestMsgData) → List Event × Option Panic
  | [] => ([], none)
  | (id, requesters) :: rest =>
    let msg : storeRequestMsgData :=
      { Key := chunk.Key, SData := chunk.SData, Id := toUint64 id,
        requestTimeout := none, peer := none }
    let r := propagateLoop msg now requesterCount requesters
    match r.2 with
    | some e => (r.1, some e)
    | none =>
      let r2 := propagateIds chunk now rest
      (r.1 ++ r2.1, r2.2)

/-- The method `netStore.propagateResponse(chunk)`; `now` is the reading of `time.Now()`
in the loop. -/
def netStore.propagateResponse (chunk : Chunk) (now : Time) : List Event × Option Panic :=
  match chunk.req with
  | none => ([], some Panic.nilDereference)
  | some rs => propagateIds chunk now rs.requesters

/-- The method `netStore.put(entry)`. -/
def netStore.put (self : netStore) (h : hive) (entry : Chunk) (now : Time) : Result :=
  let self1 : netStore := { localStore := self.localStore.Put entry }
  match entry.req with
  | some req =>
    if req.status = reqSearching then
      let entry1 : Chunk := { entry with req := some { req with status := reqFound } }
      if req.C then
        { self := { localStore := self1.localStore.set entry1 }, sent := [Event.close entry.Key],
          panic := some Panic.closeOfClosedChannel, locked := false }
      else
        let entry2 : Chunk :=
          { entry with req := some { req with status := reqFound, C := true } }
        let r := netStore.propagateResponse entry2 now
        { self := { localStore := self1.localStore.set entry2 },
          sent := Event.close entry.Key :: r.1, panic := r.2, locked := false }
    else { self := self1, sent := [], panic := none, locked := false }
  | none => { self := self1, sent := netStore.store h entry, panic := none, locked := false }

/-- The method `netStore.Put(entry)`. -/
def netStore.Put (self : netStore) (h : hive) (entry : Chunk) (now : Time) : Result :=
  match self.localStore.Get entry.Key with
  | none => self.put h entry now
  | some chunk =>
    match chunk.SData with
    | none => self.put h { chunk with SData := entry.SData, Size := entry.Size } now
    | some _ => { self := self, sent := [], panic := none, locked := false }

/-- The method `netStore.addStoreRequest(req)`. In the placeholder branch line 128 assigns
`chunk.SData` before line 129 slices `req.SData[0:8]`. -/
def netStore.addStoreRequest (self : netStore) (h : hive) (req : storeRequestMsgData)
    (now : Time) : Result :=
  match self.localStore.Get req.Key with
  | none =>
    match decodeSize req.SData with
    | none => { self := self, sent := [], panic := some Panic.sliceBounds, locked := true }
    | some size =>
      let chunk : Chunk :=
        { Key := req.Key, SData := req.SData, Size := size, source := none, req := none }
      { self.put h { chunk with source := req.peer } now with locked := true }
  | some chunk =>
    match chunk.SData with
    | none =>
      let chunk1 : Chunk := { chunk with SData := req.SData }
      match decodeSize req.SData with
      | none =>
        { self := { localStore := self.localStore.set chunk1 }, sent := [],
          panic := some Panic.sliceBounds, locked := true }
      | some size =>
        { self.put h { chunk1 with Size := size, source := req.peer } now with locked := true }
    | some _ => { self := self, sent := [], panic := none, locked := true }

/-- The method `netStore.get(key)`: the store after it and the chunk it returns. -/
def netStore.get (self : netStore) (key : Key) : netStore × Chunk :=
  let r : netStore × Chunk :=
    match self.localStore.Get key with
    | none =>
      let chunk : Chunk := { Key := key, SData := none, Size := 0, source := none, req := none }
      ({ localStore := self.localStore.memStorePut chunk }, chunk)
    | some chunk => (self, chunk)
  match r.2.req with
  | none =>
    let chunk1 : Chunk := { r.2 with req := some newRequestStatus }
    ({ localStore := r.1.localStore.set chunk1 }, chunk1)
  | some _ => r

/-- The loops of lines 226-233: is a peer with address `a` among the recorded requesters
(of any id)? -/
def isRequester (requesters : List (Int × List retrieveRequestMsgData)) (a : Nat) : Bool :=
  requesters.any (fun e => e.2.any (fun recipient => decide (recipient.peer.addr = a)))

/-- The method `netStore.startSearch(chunk, id, timeout)`. -/
def netStore.startSearch (self : netStore) (h : hive) (chunk : Chunk) (id : Int)
    (timeout : Option Time) : Result :=
  match chunk.req with
  | none => { self := self, sent := [], panic := some Panic.nilDereference, locked := false }
  | some rs =>
    let chunk1 : Chunk := { chunk with req := some { rs with status := reqSearching } }
    let req : retrieveRequestMsgData :=
      { Key := chunk.Key, Id := toUint64 id, MaxPeers := 0, timeout := timeout, peer := default }
    { self := { localStore := self.localStore.set chunk1 },
      sent := (h chunk.Key 0).filterMap (fun p =>
        if isRequester rs.requesters p.addr then none else some (Event.retrieve p req)),
      panic := none, locked := false }

/-- The method `netStore.addRequester(rs, req)`. -/
def netStore.addRequester (rs : requestStatus) (req : retrieveRequestMsgData) : requestStatus :=
  let list := mapGet rs.requesters (toInt64 req.Id)
  { rs with requesters := mapSet rs.requesters (toInt64 req.Id) (list ++ [req]) }

/-- The method `netStore.searchTimeout(rs, req)`; `now` is its reading of `time.Now()`. -/
def netStore.searchTimeout (_rs : requestStatus) (req : retrieveRequestMsgData) (now : Time) :
    Option Time :=
  let t := now + bzz.searchTimeout
  match req.timeout with
  | some rt => if rt < t then some rt else some t
  | none => some t

/-- The method `netStore.strategyUpdateRequest(rs, req)`: the updated record and the timeout. -/
def netStore.strategyUpdateRequest (rs : requestStatus) (req : retrieveRequestMsgData)
    (now : Time) : requestStatus × Option Time :=
  let rs1 := netStore.addRequester rs req
  if rs1.status = reqSearching then (rs1, netStore.searchTimeout rs1 req now) else (rs1, none)

/-- The method `netStore.deliver(req, chunk)`. -/
def netStore.deliver (req : retrieveRequestMsgData) (chunk : Chunk) : List Event :=
  [Event.store req.peer
    { Key := req.Key, Id := req.Id, SData := chunk.SData, requestTimeout := req.timeout,
      peer := none }]

/-- The method `netStore.peers(req, chunk, timeout)`. -/
def netStore.peers (h : hive) (req : retrieveRequestMsgData) (_chunk : Chunk)
    (timeout : Option Time) : List Event :=
  [Event.peers req.peer
    { Peers := (h req.Key (toInt req.MaxPeers)).map peer.peerAddr, Key := req.Key,
      Id := req.Id, timeout := timeout }]

/-- The method `netStore.addRetrieveRequest(req)`; `now` is the reading of `time.Now()` at
line 192 and `now2` the one inside `searchTimeout` (line 328). -/
def netStore.addRetrieveRequest (self : netStore) (h : hive) (req : retrieveRequestMsgData)
    (now now2 : Time) : Result :=
  let g := self.get req.Key
  match g.2.req with
  | none => { self := g.1, sent := [], panic := some Panic.nilDereference, locked := true }
  | some rs =>
    let req1 : retrieveRequestMsgData :=
      match g.2.SData with
      | none => { req with timeout := some (now + 10 * second) }
      | some _ => req
    let rs1 : requestStatus :=
      match g.2.SData with
      | none => rs
      | some _ => { rs with status := reqFound }
    let u := netStore.strategyUpdateRequest rs1 req1 now2
    let chunk1 : Chunk := { g.2 with req := some u.1 }
    let self1 : netStore := { localStore := g.1.localStore.set chunk1 }
    match u.2 with
    | none =>
      { self := self1, sent := netStore.deliver req1 chunk1, panic := none, locked := true }
    | some t =>
      let r := self1.startSearch h chunk1 (toInt64 req1.Id) (some t)
      { self := r.self, sent := netStore.peers h req1 chunk1 (some t) ++ r.sent,
        panic := r.panic, locked := true }

/-- The outcome of the first part of `Get` (lines 139-146): the store, what was sent, the
chunk `self.get(key)` gave, the value of `err` so far, whether `Get` returned at line 145
(`returned`) or went on to the `select` of lines 149-155, and whether it ran holding
`self.lock`. -/
structure GetResult where
  self : netStore
  sent : List Event
  panic : Option Panic
  chunk : Chunk
  err : Option Error
  returned : Bool
  locked : Bool
deriving DecidableEq, Repr

/-- The method `netStore.Get(key)` up to its `select` (lines 139-146); `id` is the value of
`generateId()` and `now` the reading of `time.Now()`. -/
def netStore.Get (self : netStore) (h : hive) (key : Key) (id : Int) (now : Time) : GetResult :=
  let g := self.get key
  match g.2.SData with
  | none =>
    let r := g.1.startSearch h g.2 id (some (now + bzz.searchTimeout))
    { self := r.self, sent := r.sent, panic := r.panic, chunk := g.2, err := none,
      returned := false, locked := false }
  | some _ =>
    { self := g.1, sent := [], panic := none, chunk := g.2, err := none, returned := true,
      locked := false }

/-- The two cases of the `select` in `Get`. -/
inductive Select where
  | timer
  | completion
deriving DecidableEq, Repr

/-- The `select` of `Get` (lines 149-156), taken in the store `self` as it is when the
select proceeds: the case `timer` sets `err = notFound`; the case `completion` needs the
channel `chunk.req.C` closed (`none`: that case cannot proceed). The result is the pair
`(chunk, err)` that `Get` returns, the chunk being the cache entry the pointer refers to. -/
def netStore.GetSelect (self : netStore) (key : Key) (sel : Select) :
    Option (Chunk × Option Error) :=
  match self.localStore.Get key with
  | none => none
  | some chunk =>
    match sel with
    | Select.timer => some (chunk, some Error.notFound)
    | Select.completion =>
      match chunk.req with
      | none => none
      | some rs => if rs.C then some (chunk, none) else none

/-! ## Sequences of operations -/

/-- A call of one of the four entry points, with the hive and the clock readings it sees. -/
inductive Op where
  | Put (h : hive) (entry : Chunk) (now : Time)
  | Get (h : hive) (key : Key) (id : Int) (now : Time)
  | addStoreRequest (h : hive) (req : storeRequestMsgData) (now : Time)
  | addRetrieveRequest (h : hive) (req : retrieveRequestMsgData) (now now2 : Time)

/-- The key an operation works on. -/
def Op.key : Op → Key
  | Op.Put _ entry _ => entry.Key
  | Op.Get _ key _ _ => key
  | Op.addStoreRequest _ req _ => req.Key
  | Op.addRetrieveRequest _ req _ _ => req.Key

/-- The store after an operation (for `Get`: after the part up to its `select`). -/
def Op.next (s : netStore) : Op → netStore
  | Op.Put h entry now => (s.Put h entry now).self
  | Op.Get h key id now => (s.Get h key id now).self
  | Op.addStoreRequest h req now => (s.addStoreRequest h req now).self
  | Op.addRetrieveRequest h req now now2 => (s.addRetrieveRequest h req now now2).self

/-- What an operation sends. -/
def Op.sent (s : netStore) : Op → List Event
  | Op.Put h entry now => (s.Put h entry now).sent
  | Op.Get h key id now => (s.Get h key id now).sent
  | Op.addStoreRequest h req now => (s.addStoreRequest h req now).sent
  | Op.addRetrieveRequest h req now now2 => (s.addRetrieveRequest h req now now2).sent

/-- The store after a sequence of operations, and everything sent on the way. -/
def runOps (s : netStore) : List Op → netStore × List Event
  | [] => (s, [])
  | op :: rest =>
    let r := runOps (op.next s) rest
    (r.1, op.sent s ++ r.2)

/-- The status of the request record of `key`, when the key has an entry with a record. -/
def netStore.statusOf (s : netStore) (key : Key) : Option Int :=
  match s.localStore.Get key with
  | none => none
  | some c => c.req.map (fun rs => rs.status)

/-- Whether the channel of the request record of `key` is closed. -/
def netStore.fired (s : netStore) (key : Key) : Bool :=
  match s.localStore.Get key with
  | none => false
  | some c =>
    match c.req with
    | none => false
    | some rs => rs.C

/-- Whether `key` has an entry with content. -/
def netStore.hasContent (s : netStore) (key : Key) : Bool :=
  match s.localStore.Get key with
  | none => false
  | some c => c.SData.isSome

/-- The requesters map of the request record of `key` (empty when there is none). -/
def netStore.requestersOf (s : netStore) (key : Key) : List (Int × List retrieveRequestMsgData) :=
  match s.localStore.Get key with
  | none => []
  | some c =>
    match c.req with
    | none => []
    | some rs => rs.requesters

/-- The `select` of `Get` (lines 149-156) as it blocks, in the store `self` that the first
part of `Get` leaves: `ops` are the operations that run, one after the other, before the
timer fires. The case `completion` proceeds as soon as the channel of the record of the key
is closed; the case `timer` proceeds after `ops`, the channel being still open. The result is
the pair `(chunk, err)` that `Get` returns (`none`: `Get` does not return). -/
def netStore.GetWait (self : netStore) (key : Key) : List Op → Option (Chunk × Option Error)
  | [] =>
    if self.fired key then self.GetSelect key Select.completion
    else self.GetSelect key Select.timer
  | op :: rest =>
    if self.fired key then self.GetSelect key Select.completion
    else netStore.GetWait (op.next self) key rest

/-- The placeholder `chunk` once `Put(c)` has filled it: content and size of `c`, the record
`rs` with status Found and its channel closed. -/
def Chunk.filled (chunk c : Chunk) (rs : requestStatus) : Chunk :=
  { chunk with SData := c.SData, Size := c.Size,
               req := some { rs with status := reqFound, C := true } }

/-- What `Get` and `addRetrieveRequest` do to the entry of their key: the content stays, the
record is the one `get` found or made, with the same channel; with content a status Found
stays Found, without content the status stays or becomes Searching. -/
def netStore.Updated (s s2 : netStore) (key : Key) : Prop :=
  ∃ x rs rs2, s2.localStore.Get key = some x ∧ x.SData = (s.get key).2.SData ∧
    (s.get key).2.req = some rs ∧ x.req = some rs2 ∧ rs2.C = rs.C ∧
    (x.SData ≠ none → rs.status = reqFound → rs2.status = reqFound) ∧
    (x.SData = none → rs2.status = rs.status ∨ rs2.status = reqSearching)

/-- The ask of `addRetrieveRequest` after lines 192-193: its deadline is `now + 10s`. -/
def askWithDeadline (req : retrieveRequestMsgData) (now : Time) : retrieveRequestMsgData :=
  { req with timeout := some (now + 10 * second) }

/-- The earlier of `now + 10s` (the deadline line 193 gives the ask) and
`now2 + searchTimeout`, as `searchTimeout` computes it. -/
def committedDeadline (now now2 : Time) : Time :=
  if now + 10 * second < now2 + searchTimeout then now + 10 * second else now2 + searchTimeout

/-! ## Propagation, in the words of the specification -/

/-- A requester whose deadline has not elapsed: it is set and after `now`. -/
def unexpired (now : Time) (r : retrieveRequestMsgData) : Bool :=
  match r.timeout with
  | some t => decide (t > now)
  | none => false

/-- The requesters of one id that are served: the first `requesterCount` of the unexpired
ones, in arrival order. -/
def selectedRequesters (now : Time) (requesters : List retrieveRequestMsgData) :
    List retrieveRequestMsgData :=
  (requesters.filter (unexpired now)).take requesterCount.toNat

/-- The StoreMessage propagated for the request id `id`: the key and the content of the
chunk, and the id. -/
def propagatedMsg (chunk : Chunk) (id : Int) : storeRequestMsgData :=
  { Key := chunk.Key, SData := chunk.SData, Id := toUint64 id, requestTimeout := none,
    peer := none }

/-- What propagation sends: for every id of the map, the StoreMessage of that id to each of
its served requesters. -/
def propagatedTo (chunk : Chunk) (now : Time)
    (m : List (Int × List retrieveRequestMsgData)) : List Event :=
  match m with
  | [] => []
  | e :: rest =>
    (selectedRequesters now e.2).map (fun r => Event.store r.peer (propagatedMsg chunk e.1))
      ++ propagatedTo chunk now rest

/-- Whether an event is an announce (`peer.storeRequest`). -/
def Event.isAnnounce : Event → Bool
  | Event.storeRequest _ _ => true
  | _ => false

/-- What `Put` and `addStoreRequest` are compared on: a cache entry without its size and
its source. -/
def Chunk.merged (c : Chunk) : bzz.Key × Option Slice × Option requestStatus :=
  (c.Key, c.SData, c.req)

/-- The peers an announce goes to, in the words of the specification: the peers the hive
returns for the key whose address differs from the address of the source (all of them when
there is no source). -/
def announceTargets (h : hive) (key : Key) (source : Option peer) : List peer :=
  (h key 0).filter (fun p =>
    match source with
    | none => true
    | some src => decide (p.addr ≠ src.addr))

/-- Whether an operation panics, and how. -/
def Op.panic (s : netStore) : Op → Option Panic
  | Op.Put h entry now => (s.Put h entry now).panic
  | Op.Get h key id now => (s.Get h key id now).panic
  | Op.addStoreRequest h req now => (s.addStoreRequest h req now).panic
  | Op.addRetrieveRequest h req now now2 => (s.addRetrieveRequest h req now now2).panic

/-- A `Put` of a chunk that carries no request record; the other operations are not
restricted. -/
def Op.putNoRecord : Op → Prop
  | Op.Put _ entry _ => entry.req = none
  | _ => True

/-- Every requester of the map has a deadline (a non-nil `timeout`). -/
def deadlinesSet (m : List (Int × List retrieveRequestMsgData)) : Prop :=
  ∀ e ∈ m, ∀ r ∈ e.2, r.timeout ≠ none

/-- The invariant of the store when no `Put` brings a record: the requesters of the record of
an entry without content all have a deadline. -/
def netStore.InvDeadline (s : netStore) : Prop :=
  ∀ k c rs, s.localStore.Get k = some c → c.req = some rs → c.SData = none →
    deadlinesSet rs.requesters

/-! ## The length field, in the words of the specification -/

/-- The first 8 bytes of `b` read as a little-endian unsigned number: the number whose
digits in base 256, least significant first, are these bytes. -/
def lengthField (b : List Nat) : Nat :=
  Nat.ofDigits 256 ((b.take 8).map (fun x => x % 256))

/-- The first 8 bytes of `b` read as a little-endian 64-bit integer: `lengthField` taken as
a signed (two's complement) 64-bit value. -/
def lengthPrefix (b : List Nat) : Int :=
  if lengthField b < 2 ^ 63 then (lengthField b : Int) else (lengthField b : Int) - 2 ^ 64

/-! ## Example values -/

/-- Peer A. -/
def exPeerA : peer := { conn := 1, addr := 10 }

/-- Peer B. -/
def exPeerB : peer := { conn := 2, addr := 20 }

/-- A hive that knows the peers A and B for every key. -/
def exHive : hive := fun _ _ => [exPeerA, exPeerB]

/-- A key. -/
def exKey : Key := [170]

/-- A chunk with content: the length 3 as 8 little-endian bytes, then 3 bytes. -/
def exChunk : Chunk :=
  { Key := exKey, SData := some ⟨[3, 0, 0, 0, 0, 0, 0, 0, 104, 105, 33], []⟩, Size := 3,
    source := none, req := none }

/-- A second chunk with the same key and other content. -/
def exChunk2 : Chunk :=
  { Key := exKey, SData := some ⟨[1, 0, 0, 0, 0, 0, 0, 0, 63], []⟩, Size := 1,
    source := none, req := none }

/-- A chunk of the same key without content. -/
def exNoContent : Chunk :=
  { Key := exKey, SData := none, Size := 0, source := none, req := none }

/-- A retrieve request of peer A for the key, with id 7 and a deadline at instant 1000. -/
def exAsk : retrieveRequestMsgData :=
  { Key := exKey, Id := 7, MaxPeers := 2, timeout := some 1000, peer := exPeerA }

/-- The store after `Put(exChunk)` on the empty store. -/
def exFilled : netStore := (netStore.empty.Put exHive exChunk 0).self

/-- The store after a `Get` miss on the empty store: a placeholder in Searching state. -/
def exS1 : netStore := (netStore.empty.Get exHive exKey 5 0).self

/-- Then peer A asks for the key: A is recorded as a requester under id 7. -/
def exS2 : netStore := (exS1.addRetrieveRequest exHive exAsk 1 1).self

/-- Then `Put` of the chunk without content: the record is Found and its channel closed,
the entry still has no content. -/
def exS3 : netStore := (exS2.Put exHive exNoContent 2).self

/-- Then a second `Get`: the record is back in Searching state, its channel still closed. -/
def exS4 : netStore := (exS3.Get exHive exKey 6 3).self

/-- A request record with five requesters under the id 7: the peers 1, 2, 4 and 5 have a
deadline after the instant 100, the peer 3 has not. -/
def exFive : requestStatus :=
  { key := [], status := reqFound, C := true,
    requesters := [(7,
      [{ Key := exKey, Id := 7, MaxPeers := 0, timeout := some 200, peer := ⟨1, 1⟩ },
       { Key := exKey, Id := 7, MaxPeers := 0, timeout := some 200, peer := ⟨2, 2⟩ },
       { Key := exKey, Id := 7, MaxPeers := 0, timeout := some 50, peer := ⟨3, 3⟩ },
       { Key := exKey, Id := 7, MaxPeers := 0, timeout := some 200, peer := ⟨4, 4⟩ },
       { Key := exKey, Id := 7, MaxPeers := 0, timeout := some 200, peer := ⟨5, 5⟩ }])] }

/-- A store message of peer B for the key: the length 11 as 8 little-endian bytes, then the
11 bytes of "hello-chunk". -/
def exHello : storeRequestMsgData :=
  { Key := exKey, Id := 5, requestTimeout := none, peer := some exPeerB,
    SData := some ⟨[11, 0, 0, 0, 0, 0, 0, 0, 104, 101, 108, 108, 111, 45, 99, 104, 117, 110,
      107], []⟩ }

/-- A store message of peer B for the key whose content has 3 bytes. -/
def exShort : storeRequestMsgData :=
  { Key := exKey, Id := 5, requestTimeout := none, peer := some exPeerB,
    SData := some ⟨[1, 2, 3], []⟩ }

/-- The retrieve request `exAsk` (key `exKey`, id 7) as sent by the peer with connection and
address `n`. -/
def exAskFrom (n : Nat) : retrieveRequestMsgData :=
  { exAsk with peer := { conn := n, addr := n } }

/-- Four retrieve requests for the key under the id 7, of the peers 1, 2, 3 and 4. -/
def exFourAsks : List Op :=
  [Op.addRetrieveRequest exHive (exAskFrom 1) 1 1, Op.addRetrieveRequest exHive (exAskFrom 2) 2 2,
   Op.addRetrieveRequest exHive (exAskFrom 3) 3 3, Op.addRetrieveRequest exHive (exAskFrom 4) 4 4]

/-- The entry of the key in the store `exS2`: a placeholder whose record, in Searching state,
has the peer A as a requester under the id 7. -/
def exAsked : Chunk :=
  { Key := exKey, SData := none, Size := 0, source := none,
    req := some { key := [], status := 0, C := false,
                  requesters := [(7, [{ exAsk with timeout := some 10000000001 }])] } }

/-- A hive that returns the peers A and B when asked for at least as many peers as zero and
no peer when asked for a negative number of peers. -/
def exHiveMax : hive := fun _ max => if max < 0 then [] else [exPeerA, exPeerB]

/-- The store message `exShort` in a slice of capacity 16: 3 bytes of content, then 13 zero
bytes of the backing array. -/
def exShortSpare : storeRequestMsgData :=
  { exShort with SData := some ⟨[1, 2, 3], [0, 0, 0, 0, 0, 0, 0, 0, 0, 0, 0, 0, 0]⟩ }

/-- A store message of peer B whose length field has the bytes 1, 2, 3, 0, 0, 0, 0, 128:
as an unsigned number above `2 ^ 63`. -/
def exWide : storeRequestMsgData :=
  { exShort with SData := some ⟨[1, 2, 3, 0, 0, 0, 0, 128, 9], []⟩ }

/-! # Theorems -/

/-! ## The chunk cache -/

theorem find_upsert_same (l : List Chunk) (c : Chunk) :
    (upsert l c).find? (fun d => decide (d.Key = c.Key)) = some c := by
  induction l with
  | nil => simp [upsert]
  | cons d rest ih =>
    by_cases hd : d.Key = c.Key
    · simp [upsert, hd]
    · simp [upsert, hd, List.find?, ih]

theorem find_upsert_other (l : List Chunk) (c : Chunk) (k : Key) (hk : c.Key ≠ k) :
    (upsert l c).find? (fun d => decide (d.Key = k)) = l.find? (fun d => decide (d.Key = k)) := by
  induction l with
  | nil => simp [upsert, hk]
  | cons d rest ih =>
    by_cases hd : d.Key = c.Key
    · have hdk : d.Key ≠ k := by rw [hd]; exact hk
      simp [upsert, hd, List.find?, hk, hdk]
    · by_cases hdk : d.Key = k
      · rw [upsert, if_neg hd]
        simp [List.find?, hdk]
      · rw [upsert, if_neg hd]
        simp [List.find?, hdk, ih]

theorem upsert_upsert (l : List Chunk) (c d : Chunk) (h : c.Key = d.Key) :
    upsert (upsert l c) d = upsert l d := by
  induction l with
  | nil => simp [upsert, h]
  | cons e rest ih =>
    by_cases he : e.Key = c.Key
    · have he2 : e.Key = d.Key := he.trans h
      simp [upsert, he, he2, h]
    · have he2 : ¬ e.Key = d.Key := fun x => he (x.trans h.symm)
      simp [upsert, he, he2, ih]

theorem upsert_of_find (l : List Chunk) (c : Chunk)
    (h : l.find? (fun d => decide (d.Key = c.Key)) = some c) : upsert l c = l := by
  induction l with
  | nil => simp at h
  | cons e rest ih =>
    by_cases he : e.Key = c.Key
    · simp [List.find?, he] at h
      simp [upsert, he, h]
    · simp [List.find?, he] at h
      simp [upsert, he, ih h]

theorem localStore.Get_Put_same (ls : localStore) (c : Chunk) :
    (ls.Put c).Get c.Key = some c := find_upsert_same ls.chunks c

theorem localStore.Get_Put_other (ls : localStore) (c : Chunk) (k : Key) (hk : c.Key ≠ k) :
    (ls.Put c).Get k = ls.Get k := find_upsert_other ls.chunks c k hk

theorem localStore.Put_Put (ls : localStore) (c d : Chunk) (h : c.Key = d.Key) :
    (ls.Put c).Put d = ls.Put d := by
  simp [localStore.Put, upsert_upsert _ _ _ h]

theorem localStore.Put_of_Get (ls : localStore) (c : Chunk) (h : ls.Get c.Key = some c) :
    ls.Put c = ls := by
  cases ls with
  | mk l => simp [localStore.Put, upsert_of_find l c h]

theorem localStore.Get_key (ls : localStore) (k : Key) (c : Chunk) (h : ls.Get k = some c) :
    c.Key = k := by
  have := List.find?_some h
  simpa using this

/-! ## Put -/

/-- What `put` leaves in the cache: one upsert, of an entry with the key, content, size and
source of the entry put, whose record (if any) is not in Searching state. -/
theorem netStore.put_self (s : netStore) (h : hive) (e : Chunk) (now : Time) :
    ∃ x : Chunk, (s.put h e now).self = ⟨s.localStore.Put x⟩ ∧ x.Key = e.Key ∧
      x.SData = e.SData ∧ x.Size = e.Size ∧ x.source = e.source ∧
      (∀ rs, x.req = some rs → rs.status ≠ reqSearching) := by
  unfold netStore.put
  cases hreq : e.req with
  | none => exact ⟨e, by simp [hreq]⟩
  | some rs =>
    by_cases hs : rs.status = reqSearching
    · by_cases hc : rs.C = true
      · refine ⟨{ e with req := some { rs with status := reqFound } }, ?_⟩
        simp [hs, hc, localStore.set, localStore.Put_Put, reqFound, reqSearching]
      · refine ⟨{ e with req := some { rs with status := reqFound, C := true } }, ?_⟩
        simp [hs, hc, localStore.set, localStore.Put_Put, reqFound, reqSearching]
    · exact ⟨e, by simp [hs, hreq]⟩

/-- A `put` of the entry that is already cached, with no record in Searching state, leaves
the store as it is. -/
theorem netStore.put_stable (s : netStore) (h : hive) (x : Chunk) (now : Time)
    (hget : s.localStore.Get x.Key = some x)
    (hreq : ∀ rs, x.req = some rs → rs.status ≠ reqSearching) :
    (s.put h x now).self = s := by
  unfold netStore.put
  cases hr : x.req with
  | none => simp [localStore.Put_of_Get _ _ hget]
  | some rs => simp [hreq rs hr, localStore.Put_of_Get _ _ hget]

/-- A `Put` whose key holds an entry with the same content and size and no record in
Searching state leaves the store as it is. -/
theorem netStore.Put_stable (s : netStore) (h : hive) (c x : Chunk) (now : Time)
    (hget : s.localStore.Get c.Key = some x) (hd : x.SData = c.SData) (hz : x.Size = c.Size)
    (hreq : ∀ rs, x.req = some rs → rs.status ≠ reqSearching) :
    (s.Put h c now).self = s := by
  unfold netStore.Put
  rw [hget]
  cases hx : x.SData with
  | some d => simp [hx]
  | none =>
    have hk : x.Key = c.Key := localStore.Get_key _ _ _ hget
    have hxe : ({ x with SData := c.SData, Size := c.Size } : Chunk) = x := by
      cases x; simp_all
    simp only [hxe, hx]
    exact netStore.put_stable s h x now (by rw [hk]; exact hget) hreq

/-- C1: running `Put(c)` twice in a row leaves the store (hence, for every key, the
presence, content, size and request record of its cache entry) as running it once does. -/
theorem C1_Put_twice (s : netStore) (h h2 : hive) (c : Chunk) (now now2 : Time) :
    ((s.Put h c now).self.Put h2 c now2).self = (s.Put h c now).self := by
  cases hget : s.localStore.Get c.Key with
  | none =>
    have e1 : s.Put h c now = s.put h c now := by simp [netStore.Put, hget]
    obtain ⟨x, hx, hk, hd, hz, -, hreq⟩ := netStore.put_self s h c now
    rw [e1, hx]
    exact netStore.Put_stable _ h2 c x now2 (by rw [← hk]; exact localStore.Get_Put_same _ _)
      hd hz hreq
  | some chunk =>
    cases hsd : chunk.SData with
    | some d =>
      have e1 : ∀ h now, (s.Put h c now).self = s := by
        intro h now; simp [netStore.Put, hget, hsd]
      rw [e1, e1]
    | none =>
      have e1 : s.Put h c now = s.put h { chunk with SData := c.SData, Size := c.Size } now := by
        simp [netStore.Put, hget, hsd]
      obtain ⟨x, hx, hk, hd, hz, -, hreq⟩ :=
        netStore.put_self s h { chunk with SData := c.SData, Size := c.Size } now
      have hck : chunk.Key = c.Key := localStore.Get_key _ _ _ hget
      rw [e1, hx]
      refine netStore.Put_stable _ h2 c x now2 ?_ hd hz hreq
      have : x.Key = c.Key := by rw [hk]; exact hck
      rw [← this]; exact localStore.Get_Put_same _ _

/-- C2: when the key's cache entry already has content, `Put(c)` (whatever the content of
`c`) leaves the store as it is, closes no channel, sends nothing and does not panic. -/
theorem C2_Put_first_writer_wins (s : netStore) (h : hive) (c chunk : Chunk) (d : Slice)
    (now : Time) (hget : s.localStore.Get c.Key = some chunk) (hd : chunk.SData = some d) :
    s.Put h c now = { self := s, sent := [], panic := none, locked := false } := by
  simp [netStore.Put, hget, hd]

/-- C2, at the store that holds `exChunk`: a `Put` of other content under the same key. -/
theorem C2_Put_first_writer_wins_witness :
    exFilled.Put exHive exChunk2 1
      = { self := exFilled, sent := [], panic := none, locked := false } ∧
    exFilled.localStore.Get exKey = some exChunk :=
  ⟨C2_Put_first_writer_wins exFilled exHive exChunk2 exChunk
      ⟨[3, 0, 0, 0, 0, 0, 0, 0, 104, 105, 33], []⟩ 1 (by decide) (by decide), by decide⟩

/-! ## Propagation -/

theorem propagateLoop_sent_store (msg : storeRequestMsgData) (now : Time)
    (l : List retrieveRequestMsgData) :
    ∀ counter : Int, ∀ e ∈ (propagateLoop msg now counter l).1, ∃ p, e = Event.store p msg := by
  induction l with
  | nil => intro counter e he; simp [propagateLoop] at he
  | cons r rest ih =>
    intro counter e he
    unfold propagateLoop at he
    cases ht : r.timeout with
    | none => simp [ht] at he
    | some t =>
      simp only [ht] at he
      by_cases hlt : t > now
      · by_cases hc : counter - 1 ≤ 0
        · simp [hlt, hc] at he
          exact ⟨_, he⟩
        · simp [hlt, hc] at he
          rcases he with he | he
          · exact ⟨_, he⟩
          · exact ih _ e he
      · simp [hlt] at he
        exact ih _ e he

theorem propagateIds_sent_store (chunk : Chunk) (now : Time)
    (m : List (Int × List retrieveRequestMsgData)) :
    ∀ e ∈ (propagateIds chunk now m).1, ∃ p msg, e = Event.store p msg := by
  induction m with
  | nil => intro e he; simp [propagateIds] at he
  | cons a rest ih =>
    intro e he
    obtain ⟨id, rqs⟩ := a
    unfold propagateIds at he
    simp only at he
    split at he
    · obtain ⟨p, hp⟩ := propagateLoop_sent_store _ now rqs _ e he
      exact ⟨p, _, hp⟩
    · simp only [List.mem_append] at he
      rcases he with he | he
      · obtain ⟨p, hp⟩ := propagateLoop_sent_store _ now rqs _ e he
        exact ⟨p, _, hp⟩
      · exact ih e he

/-- Everything `propagateResponse` sends is a StoreMessage. -/
theorem netStore.propagateResponse_sent_store (chunk : Chunk) (now : Time) :
    ∀ e ∈ (netStore.propagateResponse chunk now).1, ∃ p msg, e = Event.store p msg := by
  unfold netStore.propagateResponse
  cases chunk.req with
  | none => intro e he; simp at he
  | some rs => exact propagateIds_sent_store chunk now rs.requesters

/-- C3 (as the claim states it) fails at the store `exS4`, reached by a `Get` miss, a
retrieve request of peer A, a `Put` of a chunk without content and a second `Get`: the entry
is a placeholder whose record is in Searching state, with the unexpired requester A, but the
channel is already closed, so `Put(exChunk)` panics at `close(entry.req.C)` and propagates
nothing, where `propagateResponse` would have sent a StoreMessage to A. -/
theorem C3_counterexample :
    (exS4.localStore.Get exKey).map (fun c => (c.SData, c.req.map (fun rs => rs.status)))
      = some (none, some reqSearching) ∧
    exS4.fired exKey = true ∧
    (exS4.Put exHive exChunk 4).panic = some Panic.closeOfClosedChannel ∧
    (exS4.Put exHive exChunk 4).sent = [Event.close exKey] ∧
    ((exS4.Put exHive exChunk 4).self.localStore.Get exKey).map
        (fun c => (netStore.propagateResponse c 4).1)
      = some [Event.store exPeerA
          { Key := exKey, Id := 7, SData := exChunk.SData, requestTimeout := none,
            peer := none }] := by
  decide

/-- C3, amended: when the key's cache entry is a placeholder without content whose record
is in Searching state and whose channel is still open, `Put(c)` fills content and size from
`c`, sets the status to Found, closes the channel, runs `propagateResponse` on the filled
entry (its outcome is the outcome of `Put`) and sends no announce. -/
theorem C3_Put_placeholder_searching (s : netStore) (h : hive) (c chunk : Chunk)
    (rs : requestStatus) (now : Time)
    (hget : s.localStore.Get c.Key = some chunk) (hsd : chunk.SData = none)
    (hreq : chunk.req = some rs) (hst : rs.status = reqSearching) (hopen : rs.C = false) :
    (s.Put h c now).self.localStore.Get c.Key = some (chunk.filled c rs) ∧
    (s.Put h c now).sent
      = Event.close c.Key :: (netStore.propagateResponse (chunk.filled c rs) now).1 ∧
    (s.Put h c now).panic = (netStore.propagateResponse (chunk.filled c rs) now).2 ∧
    (∀ p key, Event.storeRequest p key ∉ (s.Put h c now).sent) := by
  have hk : chunk.Key = c.Key := localStore.Get_key _ _ _ hget
  have hk2 : (chunk.filled c rs).Key = c.Key := hk
  have hP : s.Put h c now =
      { self := ⟨s.localStore.Put (chunk.filled c rs)⟩,
        sent := Event.close c.Key :: (netStore.propagateResponse (chunk.filled c rs) now).1,
        panic := (netStore.propagateResponse (chunk.filled c rs) now).2,
        locked := false } := by
    simp [netStore.Put, netStore.put, hget, hsd, hreq, hst, hopen, localStore.set,
      localStore.Put_Put, hk, Chunk.filled]
  rw [hP]
  refine ⟨?_, rfl, rfl, ?_⟩
  · have := localStore.Get_Put_same s.localStore (chunk.filled c rs)
    rw [hk2] at this
    exact this
  · intro p key hmem
    simp only [List.mem_cons] at hmem
    rcases hmem with hmem | hmem
    · cases hmem
    · obtain ⟨q, msg, hq⟩ := netStore.propagateResponse_sent_store _ now _ hmem
      cases hq

/-- C3 amended, at the store `exS2` (a placeholder in Searching state with requester A):
`Put(exChunk)` closes the channel and sends the content to A. -/
theorem C3_Put_placeholder_searching_witness :
    (exS2.Put exHive exChunk 4).sent
      = [Event.close exKey,
         Event.store exPeerA
          { Key := exKey, Id := 7, SData := exChunk.SData, requestTimeout := none,
            peer := none }] ∧
    (exS2.Put exHive exChunk 4).self.statusOf exKey = some reqFound ∧
    (exS2.Put exHive exChunk 4).self.fired exKey = true :=
  ⟨(C3_Put_placeholder_searching exS2 exHive exChunk
      { Key := exKey, SData := none, Size := 0, source := none,
        req := some { key := [], status := 0,
                      requesters := [(7, [{ exAsk with timeout := some 10000000001 }])],
                      C := false } }
      { key := [], status := 0,
        requesters := [(7, [{ exAsk with timeout := some 10000000001 }])], C := false }
      4 (by decide) rfl rfl rfl rfl).2.1.trans (by decide), by decide, by decide⟩

/-! ## Get -/

theorem localStore.Get_Put_of_key (ls : localStore) (c : Chunk) (k : Key) (h : c.Key = k) :
    (ls.Put c).Get k = some c := by
  subst h; exact localStore.Get_Put_same ls c

/-- The chunk `get` returns is the entry it leaves in the cache under the key. -/
theorem netStore.get_Get (s : netStore) (key : Key) :
    (s.get key).1.localStore.Get key = some (s.get key).2 := by
  unfold netStore.get
  cases hget : s.localStore.Get key with
  | none =>
    simp only [localStore.memStorePut, localStore.set]
    exact localStore.Get_Put_same _
      { Key := key, SData := none, Size := 0, source := none, req := some newRequestStatus }
  | some chunk =>
    have hk : chunk.Key = key := localStore.Get_key _ _ _ hget
    cases hr : chunk.req with
    | none =>
      simp only [hr, localStore.set]
      have := localStore.Get_Put_same s.localStore { chunk with req := some newRequestStatus }
      simpa [hk] using this
    | some rs => simp [hr, hget]

/-! ## What the operations do to the cache -/

theorem netStore.put_other (s : netStore) (h : hive) (e : Chunk) (now : Time) (k : Key)
    (hk : e.Key ≠ k) : (s.put h e now).self.localStore.Get k = s.localStore.Get k := by
  obtain ⟨x, hx, hxk, -⟩ := netStore.put_self s h e now
  rw [hx]
  exact localStore.Get_Put_other _ _ _ (by rw [hxk]; exact hk)

/-- After `put` the key of the entry has an entry with the content of the entry put. -/
theorem netStore.put_at (s : netStore) (h : hive) (e : Chunk) (now : Time) :
    ∃ x : Chunk, (s.put h e now).self.localStore.Get e.Key = some x ∧ x.SData = e.SData := by
  obtain ⟨x, hx, hxk, hd, -⟩ := netStore.put_self s h e now
  exact ⟨x, by rw [hx]; exact localStore.Get_Put_of_key _ _ _ hxk, hd⟩

/-- The method `get` leaves the other keys as they are. -/
theorem netStore.get_other (s : netStore) (key k : Key) (hk : key ≠ k) :
    (s.get key).1.localStore.Get k = s.localStore.Get k := by
  unfold netStore.get
  cases hget : s.localStore.Get key with
  | none =>
    simp only [localStore.memStorePut, localStore.set]
    rw [localStore.Get_Put_other _ _ _ hk, localStore.Get_Put_other _ _ _ hk]
  | some chunk =>
    have hck : chunk.Key = key := localStore.Get_key _ _ _ hget
    cases hr : chunk.req with
    | none =>
      simp only [hr, localStore.set]
      exact localStore.Get_Put_other _ _ _ (by simpa [hck] using hk)
    | some rs => simp [hr]

/-- The chunk `get` returns: the key asked for, the content the cache had, and a record,
which is the one the cache had or else a new one. -/
theorem netStore.get_chunk (s : netStore) (key : Key) :
    (s.get key).2.Key = key ∧
    (s.get key).2.SData = (s.localStore.Get key).bind (fun c => c.SData) ∧
    ∃ rs, (s.get key).2.req = some rs ∧
      ((s.localStore.Get key).bind (fun c => c.req) = some rs ∨
       ((s.localStore.Get key).bind (fun c => c.req) = none ∧ rs = newRequestStatus)) := by
  unfold netStore.get
  cases hget : s.localStore.Get key with
  | none => simp
  | some chunk =>
    have hck : chunk.Key = key := localStore.Get_key _ _ _ hget
    cases hr : chunk.req with
    | none => simp [hr, hck]
    | some rs => simp [hr, hck]

theorem netStore.startSearch_self (s : netStore) (h : hive) (chunk : Chunk) (rs : requestStatus)
    (id : Int) (timeout : Option Time) (hr : chunk.req = some rs) :
    s.startSearch h chunk id timeout =
      { self := ⟨s.localStore.Put { chunk with req := some { rs with status := reqSearching } }⟩,
        sent := (h chunk.Key 0).filterMap (fun p =>
          if isRequester rs.requesters p.addr then none
          else some (Event.retrieve p
            { Key := chunk.Key, Id := toUint64 id, MaxPeers := 0, timeout := timeout,
              peer := default })),
        panic := none, locked := false } := by
  simp [netStore.startSearch, hr, localStore.set]

theorem netStore.Get_of_none (s : netStore) (h : hive) (key : Key) (id : Int) (now : Time)
    (hsd : (s.get key).2.SData = none) :
    s.Get h key id now =
      { self := ((s.get key).1.startSearch h (s.get key).2 id (some (now + bzz.searchTimeout))).self,
        sent := ((s.get key).1.startSearch h (s.get key).2 id (some (now + bzz.searchTimeout))).sent,
        panic := ((s.get key).1.startSearch h (s.get key).2 id (some (now + bzz.searchTimeout))).panic,
        chunk := (s.get key).2, err := none, returned := false, locked := false } := by
  simp only [netStore.Get, hsd]

theorem netStore.Get_of_some (s : netStore) (h : hive) (key : Key) (id : Int) (now : Time)
    (d : Slice) (hsd : (s.get key).2.SData = some d) :
    s.Get h key id now =
      { self := (s.get key).1, sent := [], panic := none, chunk := (s.get key).2, err := none,
        returned := true, locked := false } := by
  simp only [netStore.Get, hsd]

theorem netStore.Get_updated (s : netStore) (h : hive) (key : Key) (id : Int) (now : Time) :
    s.Updated (s.Get h key id now).self key := by
  obtain ⟨hk, -, rs, hrs, -⟩ := netStore.get_chunk s key
  have hG := netStore.get_Get s key
  cases hsd : (s.get key).2.SData with
  | none =>
    rw [netStore.Get_of_none _ _ _ _ _ hsd, netStore.startSearch_self _ _ _ rs _ _ hrs]
    refine ⟨_, rs, { rs with status := reqSearching },
      localStore.Get_Put_of_key _ _ _ hk, hsd.trans hsd.symm, hrs, rfl, rfl, ?_, ?_⟩
    · intro hne; exact absurd hsd hne
    · intro _; exact Or.inr rfl
  | some d =>
    rw [netStore.Get_of_some _ _ _ _ _ d hsd]
    refine ⟨_, rs, rs, hG, rfl, hrs, hrs, rfl, ?_, ?_⟩
    · intro _ hf; exact hf
    · intro _; exact Or.inl rfl

theorem netStore.Get_other (s : netStore) (h : hive) (key : Key) (id : Int) (now : Time)
    (k : Key) (hne : key ≠ k) :
    (s.Get h key id now).self.localStore.Get k = s.localStore.Get k := by
  obtain ⟨hk, -, rs, hrs, -⟩ := netStore.get_chunk s key
  cases hsd : (s.get key).2.SData with
  | none =>
    rw [netStore.Get_of_none _ _ _ _ _ hsd, netStore.startSearch_self _ _ _ rs _ _ hrs]
    simp only
    rw [localStore.Get_Put_other _ _ _ (by simpa [hk] using hne)]
    exact netStore.get_other s key k hne
  | some d =>
    rw [netStore.Get_of_some _ _ _ _ _ d hsd]
    exact netStore.get_other s key k hne

theorem netStore.addRequester_fields (rs : requestStatus) (req : retrieveRequestMsgData) :
    (netStore.addRequester rs req).status = rs.status ∧
    (netStore.addRequester rs req).C = rs.C := by
  simp [netStore.addRequester]

/-! ## addRetrieveRequest -/

/-- The outcome of `addRetrieveRequest` when the key has content: the record becomes Found,
the ask is recorded and the content delivered. -/
theorem netStore.addRetrieveRequest_of_some (s : netStore) (h : hive)
    (req : retrieveRequestMsgData) (now now2 : Time) (rs : requestStatus) (d : Slice)
    (hsd : (s.get req.Key).2.SData = some d) (hrs : (s.get req.Key).2.req = some rs) :
    s.addRetrieveRequest h req now now2 =
      { self := ⟨(s.get req.Key).1.localStore.Put
          { (s.get req.Key).2 with
            req := some (netStore.addRequester { rs with status := reqFound } req) }⟩,
        sent := netStore.deliver req
          { (s.get req.Key).2 with
            req := some (netStore.addRequester { rs with status := reqFound } req) },
        panic := none, locked := true } := by
  simp [netStore.addRetrieveRequest, hsd, hrs, netStore.strategyUpdateRequest,
    netStore.addRequester_fields, reqFound, reqSearching, localStore.set]

/-- The outcome of `addRetrieveRequest` when the key has no content and its record is in
Searching state: the ask is recorded with the deadline `now + 10s`, a PeersOffer goes back and
the search goes on, both with the committed deadline. -/
theorem netStore.addRetrieveRequest_of_none (s : netStore) (h : hive)
    (req : retrieveRequestMsgData) (now now2 : Time) (rs : requestStatus)
    (hsd : (s.get req.Key).2.SData = none) (hrs : (s.get req.Key).2.req = some rs)
    (hst : rs.status = reqSearching) :
    s.addRetrieveRequest h req now now2 =
      { self := ⟨(s.get req.Key).1.localStore.Put
          { (s.get req.Key).2 with
            req := some { netStore.addRequester rs (askWithDeadline req now) with
                          status := reqSearching } }⟩,
        sent := netStore.peers h (askWithDeadline req now)
            { (s.get req.Key).2 with
              req := some (netStore.addRequester rs (askWithDeadline req now)) }
            (some (committedDeadline now now2)) ++
          (h (s.get req.Key).2.Key 0).filterMap (fun p =>
            if isRequester (netStore.addRequester rs (askWithDeadline req now)).requesters p.addr
            then none
            else some (Event.retrieve p
              { Key := (s.get req.Key).2.Key, Id := toUint64 (toInt64 req.Id), MaxPeers := 0,
                timeout := some (committedDeadline now now2), peer := default })),
        panic := none, locked := true } := by
  have ht : ∀ r, netStore.searchTimeout r (askWithDeadline req now) now2
      = some (committedDeadline now now2) := by
    intro r
    simp only [netStore.searchTimeout, askWithDeadline, committedDeadline]
    split <;> rfl
  have hsd2 : ((s.get req.Key).2.SData = none) := hsd
  simp only [netStore.addRetrieveRequest, hrs]
  rw [hsd]
  simp only [netStore.strategyUpdateRequest, netStore.addRequester_fields, hst, if_true]
  rw [show ({ req with timeout := some (now + 10 * second) } : retrieveRequestMsgData)
        = askWithDeadline req now from rfl, ht]
  simp [netStore.startSearch, localStore.set, localStore.Put_Put, hsd,
    (netStore.addRequester_fields rs (askWithDeadline req now)).2]

/-- The outcome of `addRetrieveRequest` when the key has no content and its record is not in
Searching state: the ask is recorded and `deliver` runs. -/
theorem netStore.addRetrieveRequest_of_none_found (s : netStore) (h : hive)
    (req : retrieveRequestMsgData) (now now2 : Time) (rs : requestStatus)
    (hsd : (s.get req.Key).2.SData = none) (hrs : (s.get req.Key).2.req = some rs)
    (hst : rs.status ≠ reqSearching) :
    s.addRetrieveRequest h req now now2 =
      { self := ⟨(s.get req.Key).1.localStore.Put
          { (s.get req.Key).2 with
            req := some (netStore.addRequester rs (askWithDeadline req now)) }⟩,
        sent := netStore.deliver (askWithDeadline req now)
          { (s.get req.Key).2 with
            req := some (netStore.addRequester rs (askWithDeadline req now)) },
        panic := none, locked := true } := by
  simp only [netStore.addRetrieveRequest, hrs]
  rw [hsd]
  simp [netStore.strategyUpdateRequest, netStore.addRequester_fields, hst, localStore.set,
    askWithDeadline, hsd]

/-- Every outcome of `addRetrieveRequest` is one of three: content and `deliver`; no content,
Searching, PeersOffer and search; no content, not Searching, `deliver`. -/
theorem netStore.addRetrieveRequest_cases (s : netStore) (req : retrieveRequestMsgData) :
    ∃ rs, (s.get req.Key).2.req = some rs ∧
      ((∃ d, (s.get req.Key).2.SData = some d) ∨
       ((s.get req.Key).2.SData = none ∧ rs.status = reqSearching) ∨
       ((s.get req.Key).2.SData = none ∧ rs.status ≠ reqSearching)) := by
  obtain ⟨-, -, rs, hrs, -⟩ := netStore.get_chunk s req.Key
  refine ⟨rs, hrs, ?_⟩
  cases hsd : (s.get req.Key).2.SData with
  | some d => exact Or.inl ⟨d, rfl⟩
  | none =>
    by_cases hst : rs.status = reqSearching
    · exact Or.inr (Or.inl ⟨rfl, hst⟩)
    · exact Or.inr (Or.inr ⟨rfl, hst⟩)

theorem netStore.addRetrieveRequest_updated (s : netStore) (h : hive)
    (req : retrieveRequestMsgData) (now now2 : Time) :
    s.Updated (s.addRetrieveRequest h req now now2).self req.Key := by
  obtain ⟨hk, -, -⟩ := netStore.get_chunk s req.Key
  obtain ⟨rs, hrs, hc | hc | hc⟩ := netStore.addRetrieveRequest_cases s req
  · obtain ⟨d, hsd⟩ := hc
    rw [netStore.addRetrieveRequest_of_some s h req now now2 rs d hsd hrs]
    refine ⟨_, rs, _, localStore.Get_Put_of_key _ _ _ hk, rfl, hrs, rfl, ?_, ?_, ?_⟩
    · simp [netStore.addRequester]
    · intro _ _; simp [netStore.addRequester]
    · intro hx; simp [hsd] at hx
  · obtain ⟨hsd, hst⟩ := hc
    rw [netStore.addRetrieveRequest_of_none s h req now now2 rs hsd hrs hst]
    refine ⟨_, rs, _, localStore.Get_Put_of_key _ _ _ hk, rfl, hrs, rfl, ?_, ?_, ?_⟩
    · simp [netStore.addRequester]
    · intro hx; simp [hsd] at hx
    · intro _; exact Or.inr rfl
  · obtain ⟨hsd, hst⟩ := hc
    rw [netStore.addRetrieveRequest_of_none_found s h req now now2 rs hsd hrs hst]
    refine ⟨_, rs, _, localStore.Get_Put_of_key _ _ _ hk, rfl, hrs, rfl, ?_, ?_, ?_⟩
    · simp [netStore.addRequester]
    · intro hx; simp [hsd] at hx
    · intro _; exact Or.inl (by simp [netStore.addRequester])

theorem netStore.addRetrieveRequest_other (s : netStore) (h : hive)
    (req : retrieveRequestMsgData) (now now2 : Time) (k : Key) (hne : req.Key ≠ k) :
    (s.addRetrieveRequest h req now now2).self.localStore.Get k = s.localStore.Get k := by
  obtain ⟨hk, -, -⟩ := netStore.get_chunk s req.Key
  have hne2 : (s.get req.Key).2.Key ≠ k := by rw [hk]; exact hne
  obtain ⟨rs, hrs, hc | hc | hc⟩ := netStore.addRetrieveRequest_cases s req
  · obtain ⟨d, hsd⟩ := hc
    rw [netStore.addRetrieveRequest_of_some s h req now now2 rs d hsd hrs]
    refine (localStore.Get_Put_other _ _ k ?_).trans (netStore.get_other s req.Key k hne)
    exact hne2
  · obtain ⟨hsd, hst⟩ := hc
    rw [netStore.addRetrieveRequest_of_none s h req now now2 rs hsd hrs hst]
    refine (localStore.Get_Put_other _ _ k ?_).trans (netStore.get_other s req.Key k hne)
    exact hne2
  · obtain ⟨hsd, hst⟩ := hc
    rw [netStore.addRetrieveRequest_of_none_found s h req now now2 rs hsd hrs hst]
    refine (localStore.Get_Put_other _ _ k ?_).trans (netStore.get_other s req.Key k hne)
    exact hne2

/-- `Put` either finds content and does nothing, or runs `put` on an entry with the key and
the content of the chunk. -/
theorem netStore.Put_cases (s : netStore) (h : hive) (entry : Chunk) (now : Time) :
    (s.hasContent entry.Key = true ∧
      s.Put h entry now = { self := s, sent := [], panic := none, locked := false }) ∨
    (s.hasContent entry.Key = false ∧
      ∃ e : Chunk, e.Key = entry.Key ∧ e.SData = entry.SData ∧
        s.Put h entry now = s.put h e now) := by
  cases hget : s.localStore.Get entry.Key with
  | none =>
    exact Or.inr ⟨by simp [netStore.hasContent, hget], entry, rfl, rfl,
      by simp [netStore.Put, hget]⟩
  | some chunk =>
    have hk : chunk.Key = entry.Key := localStore.Get_key _ _ _ hget
    cases hsd : chunk.SData with
    | none =>
      exact Or.inr ⟨by simp [netStore.hasContent, hget, hsd],
        { chunk with SData := entry.SData, Size := entry.Size }, hk, rfl,
        by simp [netStore.Put, hget, hsd]⟩
    | some d =>
      exact Or.inl ⟨by simp [netStore.hasContent, hget, hsd], by simp [netStore.Put, hget, hsd]⟩

/-- The method `addStoreRequest` either finds content and does nothing, or runs `put` on an
entry with the key and the (present) content of the message, or panics at the slice
expression, having at most assigned the content of a placeholder. -/
theorem netStore.addStoreRequest_cases (s : netStore) (h : hive) (req : storeRequestMsgData)
    (now : Time) :
    (s.hasContent req.Key = true ∧
      s.addStoreRequest h req now = { self := s, sent := [], panic := none, locked := true }) ∨
    (s.hasContent req.Key = false ∧
      ((∃ e : Chunk, e.Key = req.Key ∧ e.SData ≠ none ∧
          (s.addStoreRequest h req now).self = (s.put h e now).self ∧
          (s.addStoreRequest h req now).sent = (s.put h e now).sent) ∨
       ((s.addStoreRequest h req now).sent = [] ∧ (s.addStoreRequest h req now).self = s) ∨
       ((s.addStoreRequest h req now).sent = [] ∧
          ∃ chunk, s.localStore.Get req.Key = some chunk ∧ chunk.SData = none ∧
            (s.addStoreRequest h req now).self
              = ⟨s.localStore.Put { chunk with SData := req.SData }⟩))) := by
  have hdec : ∀ size, decodeSize req.SData = some size → req.SData ≠ none := by
    intro size hs hn
    rw [hn] at hs
    simp [decodeSize] at hs
  cases hget : s.localStore.Get req.Key with
  | none =>
    refine Or.inr ⟨by simp [netStore.hasContent, hget], ?_⟩
    cases hd : decodeSize req.SData with
    | none =>
      exact Or.inr (Or.inl ⟨by simp [netStore.addStoreRequest, hget, hd],
        by simp [netStore.addStoreRequest, hget, hd]⟩)
    | some size =>
      exact Or.inl ⟨Chunk.mk req.Key req.SData size req.peer none, rfl, hdec size hd,
        by simp [netStore.addStoreRequest, hget, hd],
        by simp [netStore.addStoreRequest, hget, hd]⟩
  | some chunk =>
    have hk : chunk.Key = req.Key := localStore.Get_key _ _ _ hget
    cases hsd : chunk.SData with
    | some d =>
      exact Or.inl ⟨by simp [netStore.hasContent, hget, hsd],
        by simp [netStore.addStoreRequest, hget, hsd]⟩
    | none =>
      refine Or.inr ⟨by simp [netStore.hasContent, hget, hsd], ?_⟩
      cases hd : decodeSize req.SData with
      | none =>
        exact Or.inr (Or.inr ⟨by simp [netStore.addStoreRequest, hget, hsd, hd], chunk, rfl, hsd,
          by simp [netStore.addStoreRequest, hget, hsd, hd, localStore.set]⟩)
      | some size =>
        exact Or.inl ⟨{ chunk with SData := req.SData, Size := size, source := req.peer }, hk,
          hdec size hd,
          by simp [netStore.addStoreRequest, hget, hsd, hd],
          by simp [netStore.addStoreRequest, hget, hsd, hd]⟩

theorem netStore.addStoreRequest_other (s : netStore) (h : hive) (req : storeRequestMsgData)
    (now : Time) (k : Key) (hne : req.Key ≠ k) :
    (s.addStoreRequest h req now).self.localStore.Get k = s.localStore.Get k := by
  rcases netStore.addStoreRequest_cases s h req now with ⟨-, he⟩ | ⟨-, hc | hc | hc⟩
  · rw [he]
  · obtain ⟨e, hek, -, hs, -⟩ := hc
    rw [hs]
    exact netStore.put_other s h e now k (by rw [hek]; exact hne)
  · rw [hc.2]
  · obtain ⟨-, chunk, hget, -, hs⟩ := hc
    have hk : chunk.Key = req.Key := localStore.Get_key _ _ _ hget
    rw [hs]
    refine localStore.Get_Put_other _ _ k ?_
    show chunk.Key ≠ k
    rw [hk]; exact hne

theorem netStore.Put_other (s : netStore) (h : hive) (entry : Chunk) (now : Time) (k : Key)
    (hne : entry.Key ≠ k) :
    (s.Put h entry now).self.localStore.Get k = s.localStore.Get k := by
  rcases netStore.Put_cases s h entry now with ⟨-, he⟩ | ⟨-, e, hek, -, he⟩
  · rw [he]
  · rw [he]
    exact netStore.put_other s h e now k (by rw [hek]; exact hne)

/-- An operation leaves the entries of the other keys as they are. -/
theorem Op.next_other (s : netStore) (op : Op) (k : Key) (hne : op.key ≠ k) :
    (op.next s).localStore.Get k = s.localStore.Get k := by
  cases op with
  | Put h entry now => exact netStore.Put_other s h entry now k hne
  | Get h key id now => exact netStore.Get_other s h key id now k hne
  | addStoreRequest h req now => exact netStore.addStoreRequest_other s h req now k hne
  | addRetrieveRequest h req now now2 =>
    exact netStore.addRetrieveRequest_other s h req now now2 k hne

/-- An operation leaves an entry under every key that had one. -/
theorem Op.next_present (s : netStore) (op : Op) (k : Key)
    (hp : ∃ c, s.localStore.Get k = some c) : ∃ c, (op.next s).localStore.Get k = some c := by
  by_cases hne : op.key = k
  · subst hne
    cases op with
    | Put h entry now =>
      show ∃ c, (s.Put h entry now).self.localStore.Get entry.Key = some c
      rcases netStore.Put_cases s h entry now with ⟨-, hP⟩ | ⟨-, e, hek, -, hP⟩
      · rw [hP]; exact hp
      · rw [hP]
        obtain ⟨x, hx, -⟩ := netStore.put_at s h e now
        exact ⟨x, hek ▸ hx⟩
    | Get h key id now =>
      obtain ⟨x, -, -, hx, -⟩ := netStore.Get_updated s h key id now
      exact ⟨x, hx⟩
    | addStoreRequest h req now =>
      show ∃ c, (s.addStoreRequest h req now).self.localStore.Get req.Key = some c
      rcases netStore.addStoreRequest_cases s h req now with
        ⟨-, hA⟩ | ⟨-, ⟨e, hek, -, hA, -⟩ | ⟨-, hA⟩ | ⟨-, chunk, hget, -, hA⟩⟩
      · rw [hA]; exact hp
      · rw [hA]
        obtain ⟨x, hx, -⟩ := netStore.put_at s h e now
        exact ⟨x, hek ▸ hx⟩
      · rw [hA]; exact hp
      · rw [hA]
        have hck : chunk.Key = req.Key := localStore.Get_key _ _ _ hget
        exact ⟨_, localStore.Get_Put_of_key _ _ _ hck⟩
    | addRetrieveRequest h req now now2 =>
      obtain ⟨x, -, -, hx, -⟩ := netStore.addRetrieveRequest_updated s h req now now2
      exact ⟨x, hx⟩
  · rw [Op.next_other s op k hne]; exact hp

/-- C4: if the key's cache entry has content, `Get` returns at once, that chunk, without
error, and sends nothing; if the key has no content (absent, or a placeholder), `Get` does
not return at once but starts a search (the record is Searching, a RetrieveAsk with the id
and the deadline `now + searchTimeout` goes to every peer of the hive that is not a recorded
requester) and then returns from its `select`, whatever operations `ops` run before the
timer fires: when the channel of the record is open after every number of these operations
(the timer fires before the completion signal), `Get` returns the entry of the key with the
error `notFound`; when the channel is first closed after `n` of them (the completion signal
comes before the timer), `Get` returns the entry of the key at that moment without error.
And whatever the store is when the `select` proceeds, the error is `notFound` exactly when
the timer case is the one taken. -/
theorem C4_Get (s : netStore) (h : hive) (key : Key) (id : Int) (now : Time) :
    (∀ chunk d, s.localStore.Get key = some chunk → chunk.SData = some d →
      (s.Get h key id now).returned = true ∧ (s.Get h key id now).err = none ∧
      (s.Get h key id now).panic = none ∧ (s.Get h key id now).sent = [] ∧
      (s.Get h key id now).chunk.Key = chunk.Key ∧
      (s.Get h key id now).chunk.SData = some d ∧
      (s.Get h key id now).chunk.Size = chunk.Size ∧
      (s.Get h key id now).chunk.source = chunk.source ∧
      (s.Get h key id now).self.localStore.Get key = some (s.Get h key id now).chunk) ∧
    ((∀ chunk, s.localStore.Get key = some chunk → chunk.SData = none) →
      (s.Get h key id now).returned = false ∧ (s.Get h key id now).panic = none ∧
      (s.Get h key id now).self.statusOf key = some reqSearching ∧
      (s.Get h key id now).sent = (h key 0).filterMap (fun p =>
        if isRequester (s.requestersOf key) p.addr then none
        else some (Event.retrieve p
          { Key := key, Id := toUint64 id, MaxPeers := 0,
            timeout := some (now + searchTimeout), peer := default })) ∧
      (∀ ops : List Op,
        (∀ n, n ≤ ops.length →
          (runOps (s.Get h key id now).self (ops.take n)).1.fired key = false) →
        ∃ c, (runOps (s.Get h key id now).self ops).1.localStore.Get key = some c ∧
          (s.Get h key id now).self.GetWait key ops = some (c, some Error.notFound)) ∧
      (∀ (ops : List Op) (n : Nat),
        (∀ m, m < n → (runOps (s.Get h key id now).self (ops.take m)).1.fired key = false) →
        (runOps (s.Get h key id now).self (ops.take n)).1.fired key = true →
        ∃ c, (runOps (s.Get h key id now).self (ops.take n)).1.localStore.Get key = some c ∧
          (s.Get h key id now).self.GetWait key ops = some (c, none)) ∧
      ∀ (s2 : netStore) (sel : Select) (c : Chunk) (err : Option Error),
        s2.GetSelect key sel = some (c, err) →
          (err = some Error.notFound ↔ sel = Select.timer)) := by
  refine ⟨?_, ?_⟩
  · intro chunk d hget hd
    have hk : chunk.Key = key := localStore.Get_key _ _ _ hget
    cases hr : chunk.req with
    | none =>
      simp [netStore.Get, netStore.get, hget, hr, hd, localStore.set,
        localStore.Get_Put_of_key, hk]
    | some rs =>
      simp [netStore.Get, netStore.get, hget, hr, hd]
  · intro hno
    have hsel : ∀ (s2 : netStore) (sel : Select) (c : Chunk) (err : Option Error),
        s2.GetSelect key sel = some (c, err) →
          (err = some Error.notFound ↔ sel = Select.timer) := by
      intro s2 sel c err hs
      unfold netStore.GetSelect at hs
      cases hg2 : s2.localStore.Get key with
      | none => simp [hg2] at hs
      | some c2 =>
        cases sel with
        | timer =>
          simp [hg2] at hs
          simp [hs.2.symm]
        | completion =>
          simp only [hg2] at hs
          cases hr2 : c2.req with
          | none => simp [hr2] at hs
          | some rs2 =>
            simp only [hr2] at hs
            by_cases hC : rs2.C = true
            · simp [hC] at hs
              simp [hs.2.symm]
            · simp [hC] at hs
    have hpres : ∃ c, (s.Get h key id now).self.localStore.Get key = some c := by
      obtain ⟨x, -, -, hx, -⟩ := netStore.Get_updated s h key id now
      exact ⟨x, hx⟩
    have hstart : (s.Get h key id now).returned = false ∧ (s.Get h key id now).panic = none ∧
        (s.Get h key id now).self.statusOf key = some reqSearching ∧
        (s.Get h key id now).sent = (h key 0).filterMap (fun p =>
          if isRequester (s.requestersOf key) p.addr then none
          else some (Event.retrieve p
            { Key := key, Id := toUint64 id, MaxPeers := 0,
              timeout := some (now + searchTimeout), peer := default })) := by
      cases hget : s.localStore.Get key with
      | none =>
        simp [netStore.Get, netStore.get, hget, netStore.startSearch, netStore.statusOf,
          localStore.set, localStore.memStorePut, localStore.Get_Put_of_key,
          netStore.requestersOf, newRequestStatus]
      | some chunk =>
        have hsd : chunk.SData = none := hno chunk hget
        have hk : chunk.Key = key := localStore.Get_key _ _ _ hget
        cases hr : chunk.req with
        | none =>
          simp [netStore.Get, netStore.get, hget, hr, hsd, netStore.startSearch,
            netStore.statusOf, localStore.set, localStore.Get_Put_of_key,
            netStore.requestersOf, newRequestStatus, hk]
        | some rs =>
          simp [netStore.Get, netStore.get, hget, hr, hsd, netStore.startSearch,
            netStore.statusOf, localStore.set, localStore.Get_Put_of_key,
            netStore.requestersOf, hk]
    have htimer : ∀ (ops : List Op) (s1 : netStore), (∃ c, s1.localStore.Get key = some c) →
        (∀ n, n ≤ ops.length → (runOps s1 (ops.take n)).1.fired key = false) →
        ∃ c, (runOps s1 ops).1.localStore.Get key = some c ∧
          s1.GetWait key ops = some (c, some Error.notFound) := by
      intro ops
      induction ops with
      | nil =>
        intro s1 hp hopen
        obtain ⟨c, hc⟩ := hp
        have h0 : s1.fired key = false := hopen 0 (Nat.le_refl 0)
        refine ⟨c, hc, ?_⟩
        simp [netStore.GetWait, h0, netStore.GetSelect, hc]
      | cons op rest ih =>
        intro s1 hp hopen
        have h0 : s1.fired key = false := hopen 0 (Nat.zero_le _)
        obtain ⟨c, hc, hw⟩ := ih (op.next s1) (Op.next_present s1 op key hp)
          (fun n hn => hopen (n + 1) (Nat.succ_le_succ hn))
        refine ⟨c, hc, ?_⟩
        simp only [netStore.GetWait, h0, Bool.false_eq_true, if_false]
        exact hw
    have hclose : ∀ s1 : netStore, s1.fired key = true →
        ∃ c, s1.localStore.Get key = some c ∧
          s1.GetSelect key Select.completion = some (c, none) := by
      intro s1 hf
      unfold netStore.fired at hf
      cases hget : s1.localStore.Get key with
      | none => simp [hget] at hf
      | some c =>
        cases hr : c.req with
        | none => simp [hget, hr] at hf
        | some rs =>
          simp only [hget, hr] at hf
          exact ⟨c, rfl, by simp [netStore.GetSelect, hget, hr, hf]⟩
    have hcompletion : ∀ (ops : List Op) (s1 : netStore) (n : Nat),
        (∀ m, m < n → (runOps s1 (ops.take m)).1.fired key = false) →
        (runOps s1 (ops.take n)).1.fired key = true →
        ∃ c, (runOps s1 (ops.take n)).1.localStore.Get key = some c ∧
          s1.GetWait key ops = some (c, none) := by
      intro ops
      induction ops with
      | nil =>
        intro s1 n _ hclosed
        have h0 : s1.fired key = true := by simpa [runOps] using hclosed
        obtain ⟨c, hc, hs⟩ := hclose s1 h0
        refine ⟨c, by simpa [runOps] using hc, ?_⟩
        simp [netStore.GetWait, h0, hs]
      | cons op rest ih =>
        intro s1 n hopen hclosed
        cases n with
        | zero =>
          have h0 : s1.fired key = true := by simpa [runOps] using hclosed
          obtain ⟨c, hc, hs⟩ := hclose s1 h0
          refine ⟨c, by simpa [runOps] using hc, ?_⟩
          simp [netStore.GetWait, h0, hs]
        | succ n =>
          have h0 : s1.fired key = false := by
            have := hopen 0 (Nat.succ_pos n)
            simpa [runOps] using this
          obtain ⟨c, hc, hw⟩ := ih (op.next s1) n
            (fun m hm => hopen (m + 1) (Nat.succ_lt_succ hm)) hclosed
          refine ⟨c, hc, ?_⟩
          simp only [netStore.GetWait, h0, Bool.false_eq_true, if_false]
          exact hw
    exact ⟨hstart.1, hstart.2.1, hstart.2.2.1, hstart.2.2.2,
      fun ops hopen => htimer ops _ hpres hopen,
      fun ops n hopen hclosed => hcompletion ops _ n hopen hclosed,
      hsel⟩

/-- C4, at the store that holds `exChunk` (a hit) and at the empty store (a miss: the ask
goes to the peers A and B). When only the retrieve request of peer A runs before the timer
fires, `Get` returns the placeholder with the error `notFound`; when the store message
`exHello` runs before the timer fires, `Get` returns the entry with the content of the
message and no error. -/
theorem C4_Get_witness :
    ((exFilled.Get exHive exKey 5 1).returned = true ∧
      (exFilled.Get exHive exKey 5 1).sent = [] ∧
      (exFilled.Get exHive exKey 5 1).chunk.SData = exChunk.SData) ∧
    ((netStore.empty.Get exHive exKey 5 0).returned = false ∧
      (netStore.empty.Get exHive exKey 5 0).sent.length = 2 ∧
      (∃ c, (runOps (netStore.empty.Get exHive exKey 5 0).self
            [Op.addRetrieveRequest exHive exAsk 1 1]).1.localStore.Get exKey = some c ∧
        (netStore.empty.Get exHive exKey 5 0).self.GetWait exKey
            [Op.addRetrieveRequest exHive exAsk 1 1] = some (c, some Error.notFound)) ∧
      (∃ c, (runOps (netStore.empty.Get exHive exKey 5 0).self
            ([Op.addRetrieveRequest exHive exAsk 1 1, Op.addStoreRequest exHive exHello 5,
              Op.Put exHive exChunk2 6].take 2)).1.localStore.Get exKey = some c ∧
        (netStore.empty.Get exHive exKey 5 0).self.GetWait exKey
            [Op.addRetrieveRequest exHive exAsk 1 1, Op.addStoreRequest exHive exHello 5,
              Op.Put exHive exChunk2 6] = some (c, none)) ∧
      exS1.GetWait exKey [Op.addRetrieveRequest exHive exAsk 1 1]
        = some (exAsked, some Error.notFound) ∧
      (exS1.GetWait exKey [Op.addRetrieveRequest exHive exAsk 1 1,
          Op.addStoreRequest exHive exHello 5, Op.Put exHive exChunk2 6]).map
        (fun r => (r.1.SData, r.1.Size, r.2)) = some (exHello.SData, 11, none)) :=
  ⟨(fun w => ⟨w.1, w.2.2.2.1, w.2.2.2.2.2.1⟩)
      ((C4_Get exFilled exHive exKey 5 1).1 exChunk
        ⟨[3, 0, 0, 0, 0, 0, 0, 0, 104, 105, 33], []⟩ (by decide) rfl),
   (fun w => ⟨w.1, by rw [w.2.2.2.1]; decide,
      w.2.2.2.2.1 [Op.addRetrieveRequest exHive exAsk 1 1] (by decide),
      w.2.2.2.2.2.1 [Op.addRetrieveRequest exHive exAsk 1 1,
        Op.addStoreRequest exHive exHello 5, Op.Put exHive exChunk2 6] 2
        (by decide) (by decide),
      by decide, by decide⟩)
      ((C4_Get netStore.empty exHive exKey 5 0).2 (fun c hc => by cases hc))⟩

/-! ## Sequences of operations from the empty store -/

theorem mapSet_mem (m : List (Int × List retrieveRequestMsgData)) (id : Int)
    (v : List retrieveRequestMsgData) : ∃ k, (k, v) ∈ mapSet m id v := by
  induction m with
  | nil => exact ⟨id, by simp [mapSet]⟩
  | cons a rest ih =>
    obtain ⟨k, w⟩ := a
    by_cases hk : k = id
    · exact ⟨k, by simp [mapSet, hk]⟩
    · obtain ⟨k2, hk2⟩ := ih
      exact ⟨k2, by simp [mapSet, hk, hk2]⟩

/-- The peer of a request is a requester once `addRequester` has recorded the request. -/
theorem netStore.isRequester_addRequester (rs : requestStatus) (req : retrieveRequestMsgData) :
    isRequester (netStore.addRequester rs req).requesters req.peer.addr = true := by
  obtain ⟨k, hk⟩ := mapSet_mem rs.requesters (toInt64 req.Id)
    (mapGet rs.requesters (toInt64 req.Id) ++ [req])
  simp only [isRequester, netStore.addRequester, List.any_eq_true, decide_eq_true_eq]
  exact ⟨_, hk, req, by simp, rfl⟩

/-- C8: handling a retrieve request of peer A (for any key, with or without content, and
whatever the hive returns) sends no RetrieveAsk to a peer whose address is the address
of A. -/
theorem C8_no_ask_back (s : netStore) (h : hive) (req : retrieveRequestMsgData)
    (now now2 : Time) (p : peer) (m : retrieveRequestMsgData)
    (hsent : Event.retrieve p m ∈ (s.addRetrieveRequest h req now now2).sent) :
    p.addr ≠ req.peer.addr := by
  obtain ⟨rs, hrs, hc | hc | hc⟩ := netStore.addRetrieveRequest_cases s req
  · obtain ⟨d, hsd⟩ := hc
    rw [netStore.addRetrieveRequest_of_some s h req now now2 rs d hsd hrs] at hsent
    simp [netStore.deliver] at hsent
  · obtain ⟨hsd, hst⟩ := hc
    rw [netStore.addRetrieveRequest_of_none s h req now now2 rs hsd hrs hst] at hsent
    simp only [netStore.peers, List.singleton_append, List.mem_cons, List.mem_filterMap]
      at hsent
    rcases hsent with hsent | ⟨q, -, hq⟩
    · cases hsent
    · by_cases hreq : isRequester
          (netStore.addRequester rs (askWithDeadline req now)).requesters q.addr = true
      · simp [hreq] at hq
      · simp only [hreq, if_false, Option.some.injEq, Event.retrieve.injEq] at hq
        obtain ⟨rfl, -⟩ := hq
        intro heq
        apply hreq
        rw [heq]
        exact netStore.isRequester_addRequester rs (askWithDeadline req now)
  · obtain ⟨hsd, hst⟩ := hc
    rw [netStore.addRetrieveRequest_of_none_found s h req now now2 rs hsd hrs hst] at hsent
    simp [netStore.deliver] at hsent

/-- C8, at the store `exS1` (a placeholder in Searching state) with a hive that returns the
asking peer A and the peer B: the ask goes on to B only. -/
theorem C8_no_ask_back_witness :
    (exS1.addRetrieveRequest exHive exAsk 1 1).sent.filterMap
        (fun e => match e with
          | Event.retrieve p _ => some p
          | _ => none) = [exPeerB] ∧
    exPeerB.addr ≠ exAsk.peer.addr :=
  ⟨by decide,
   C8_no_ask_back exS1 exHive exAsk 1 1 exPeerB
      { Key := exKey, Id := 7, MaxPeers := 0, timeout := some 3000000001, peer := default }
      (by decide)⟩

theorem committedDeadline_eq_min (now now2 : Time) :
    committedDeadline now now2 = min (now + 10 * second) (now2 + searchTimeout) := by
  unfold committedDeadline
  split
  · rw [min_eq_left]; exact le_of_lt (by assumption)
  · rw [min_eq_right]; exact le_of_not_lt (by assumption)

theorem min_deadline (now now2 : Int) (hle : now2 ≤ now + 7 * second) :
    min (now + 10 * second) (now2 + searchTimeout) = now2 + searchTimeout := by
  have h3 : searchTimeout = 3000000000 := by decide
  have h1 : second = 1000000000 := by decide
  rw [h1] at hle
  rw [h3, h1, min_eq_right]
  omega

/-- C9 (as the claim states it) fails: the ask `exAsk` carries the deadline 1000, earlier
than `now + searchTimeout = 3000000001`, and the key has no content, but the deadline of the
PeersOffer and of the forwarded RetrieveAsk is `3000000001`, not 1000. -/
theorem C9_counterexample :
    exAsk.timeout = some 1000 ∧ (1000 : Int) < 1 + searchTimeout ∧
    netStore.empty.hasContent exAsk.Key = false ∧
    (netStore.empty.addRetrieveRequest exHive exAsk 1 1).sent
      = [Event.peers exPeerA
           { Peers := [⟨10⟩, ⟨20⟩], Key := exKey, Id := 7, timeout := some 3000000001 },
         Event.retrieve exPeerB
           { Key := exKey, Id := 7, MaxPeers := 0, timeout := some 3000000001,
             peer := default }] := by
  decide

/-- C9, amended: whatever deadline the ask carries, every PeersOffer (sent to the asking
peer only) and every RetrieveAsk that `addRetrieveRequest` sends carries the deadline
`min(now + 10s, now2 + searchTimeout)`, where `now` is the clock at line 192 and `now2` the
clock inside `searchTimeout`; a PeersOffer is sent when the key has no content and its
record, if any, is in Searching state; and the deadline is `now2 + searchTimeout` when
`now2` is at most 7 seconds after `now`. -/
theorem C9_committed_deadline (s : netStore) (h : hive) (req : retrieveRequestMsgData)
    (now now2 : Time) :
    (∀ p m, Event.peers p m ∈ (s.addRetrieveRequest h req now now2).sent →
      p = req.peer ∧ m.timeout = some (min (now + 10 * second) (now2 + searchTimeout))) ∧
    (∀ p m, Event.retrieve p m ∈ (s.addRetrieveRequest h req now now2).sent →
      m.timeout = some (min (now + 10 * second) (now2 + searchTimeout))) ∧
    ((∀ chunk, s.localStore.Get req.Key = some chunk →
        chunk.SData = none ∧ ∀ rs, chunk.req = some rs → rs.status = reqSearching) →
      ∃ m, Event.peers req.peer m ∈ (s.addRetrieveRequest h req now now2).sent) ∧
    (now2 ≤ now + 7 * second →
      min (now + 10 * second) (now2 + searchTimeout) = now2 + searchTimeout) := by
  obtain ⟨rs, hrs, hc | hc | hc⟩ := netStore.addRetrieveRequest_cases s req
  · obtain ⟨d, hsd⟩ := hc
    rw [netStore.addRetrieveRequest_of_some s h req now now2 rs d hsd hrs]
    refine ⟨by simp [netStore.deliver], by simp [netStore.deliver], ?_, ?_⟩
    · intro hno
      obtain ⟨-, hgd, -⟩ := netStore.get_chunk s req.Key
      rw [hsd] at hgd
      cases hget : s.localStore.Get req.Key with
      | none => rw [hget] at hgd; cases hgd
      | some c =>
        rw [hget] at hgd
        have hgd : some d = c.SData := hgd
        rw [(hno c hget).1] at hgd
        cases hgd
    · exact min_deadline now now2
  · obtain ⟨hsd, hst⟩ := hc
    rw [netStore.addRetrieveRequest_of_none s h req now now2 rs hsd hrs hst,
      committedDeadline_eq_min]
    refine ⟨?_, ?_, ?_, ?_⟩
    · intro p m hm
      simp only [netStore.peers, List.singleton_append, List.mem_cons, List.mem_filterMap]
        at hm
      rcases hm with hm | ⟨q, -, hq⟩
      · simp only [Event.peers.injEq] at hm
        obtain ⟨rfl, rfl⟩ := hm
        exact ⟨rfl, rfl⟩
      · split at hq <;> simp at hq
    · intro p m hm
      simp only [netStore.peers, List.singleton_append, List.mem_cons, List.mem_filterMap]
        at hm
      rcases hm with hm | ⟨q, -, hq⟩
      · cases hm
      · split at hq
        · cases hq
        · simp only [Option.some.injEq, Event.retrieve.injEq] at hq
          obtain ⟨-, rfl⟩ := hq
          rfl
    · intro _
      exact ⟨_, List.mem_append_left _ (List.Mem.head _)⟩
    · exact min_deadline now now2
  · obtain ⟨hsd, hst⟩ := hc
    rw [netStore.addRetrieveRequest_of_none_found s h req now now2 rs hsd hrs hst]
    refine ⟨by simp [netStore.deliver], by simp [netStore.deliver], ?_, ?_⟩
    · intro hno
      exfalso
      apply hst
      obtain ⟨-, -, rs0, hrs0, hold⟩ := netStore.get_chunk s req.Key
      rw [hrs] at hrs0
      have hr : rs = rs0 := Option.some.inj hrs0
      subst hr
      rcases hold with ho | ⟨-, hnew⟩
      · cases hget : s.localStore.Get req.Key with
        | none => rw [hget] at ho; cases ho
        | some c =>
          rw [hget] at ho
          exact (hno c hget).2 rs ho
      · rw [hnew]; rfl
    · exact min_deadline now now2

/-- C9 amended, at the empty store: the PeersOffer to the asking peer A carries the
deadline `1 + searchTimeout`. -/
theorem C9_committed_deadline_witness :
    (∃ m, Event.peers exPeerA m ∈ (netStore.empty.addRetrieveRequest exHive exAsk 1 1).sent) ∧
    min ((1 : Int) + 10 * second) (1 + searchTimeout) = 1 + searchTimeout :=
  ⟨(C9_committed_deadline netStore.empty exHive exAsk 1 1).2.2.1 (fun c hc => by cases hc),
   (C9_committed_deadline netStore.empty exHive exAsk 1 1).2.2.2 (by decide)⟩

/-! ## Propagation fan-out -/

/-- The inner loop of `propagateResponse`, started with the counter `n + 1`, serves the first
`n + 1` unexpired requesters, when every requester has a deadline. -/
theorem propagateLoop_eq (msg : storeRequestMsgData) (now : Time)
    (l : List retrieveRequestMsgData) (hdl : ∀ r ∈ l, r.timeout ≠ none) :
    ∀ n : Nat, propagateLoop msg now ((n : Int) + 1) l
      = (((l.filter (unexpired now)).take (n + 1)).map (fun r => Event.store r.peer msg),
         none) := by
  induction l with
  | nil => intro n; simp [propagateLoop]
  | cons r rest ih =>
    intro n
    have ih := ih (fun x hx => hdl x (List.mem_cons_of_mem _ hx))
    cases ht : r.timeout with
    | none => exact absurd ht (hdl r (List.mem_cons_self _ _))
    | some t =>
      unfold propagateLoop
      simp only [ht]
      by_cases hlt : t > now
      · have hu : unexpired now r = true := by simp [unexpired, ht, hlt]
        cases n with
        | zero => simp [hlt, hu, List.filter_cons]
        | succ k =>
          have hk : ¬ ((k + 1 : Nat) : Int) + 1 - 1 ≤ 0 := by omega
          have hk2 : ((k + 1 : Nat) : Int) + 1 - 1 = (k : Int) + 1 := by omega
          have hk3 : ¬ ((k : Int) + 1 ≤ 0) := by omega
          simp only [hlt, if_true, hk, if_false, hk2, ih k, hu, List.filter_cons,
            List.take_succ_cons, List.map_cons, hk3]
      · have hu : unexpired now r = false := by simp [unexpired, ht, hlt]
        simp only [hlt, if_false, ih n, List.filter_cons, hu]
        simp

/-- The outer loop of `propagateResponse` sends what the specification says, when every
requester has a deadline. -/
theorem propagateIds_eq (chunk : Chunk) (now : Time)
    (m : List (Int × List retrieveRequestMsgData))
    (hdl : ∀ e ∈ m, ∀ r ∈ e.2, r.timeout ≠ none) :
    propagateIds chunk now m = (propagatedTo chunk now m, none) := by
  induction m with
  | nil => simp [propagateIds, propagatedTo]
  | cons e rest ih =>
    obtain ⟨id, rqs⟩ := e
    have ih := ih (fun x hx => hdl x (List.mem_cons_of_mem _ hx))
    have h1 := propagateLoop_eq (propagatedMsg chunk id) now rqs
      (hdl (id, rqs) (List.mem_cons_self _ _)) 2
    have h3 : requesterCount = ((2 : Nat) : Int) + 1 := by decide
    unfold propagateIds
    simp only [h3]
    have hm : (⟨chunk.Key, toUint64 id, chunk.SData, none, none⟩ : storeRequestMsgData)
        = propagatedMsg chunk id := rfl
    rw [hm, h1]
    simp only [ih, propagatedTo, selectedRequesters]
    rfl

/-- C10: on a record whose requesters all have a deadline, `propagateResponse` at time `now`
does not panic and sends, for every id of the map, the StoreMessage with the key and the
content of the chunk and that id to the served requesters of the id and to no one else; the
served requesters are the first `min(3, u)` of the `u` unexpired ones in arrival order, at
most `requesterCount = 3`, each with a deadline after `now`. -/
theorem C10_propagateResponse (chunk : Chunk) (rs : requestStatus) (now : Time)
    (hreq : chunk.req = some rs)
    (hdl : ∀ e ∈ rs.requesters, ∀ r ∈ e.2, r.timeout ≠ none) :
    netStore.propagateResponse chunk now = (propagatedTo chunk now rs.requesters, none) ∧
    ∀ e ∈ rs.requesters,
      selectedRequesters now e.2
        = (e.2.filter (unexpired now)).take (min 3 (e.2.filter (unexpired now)).length) ∧
      (selectedRequesters now e.2).length = min 3 (e.2.filter (unexpired now)).length ∧
      (selectedRequesters now e.2).length ≤ 3 ∧
      (∀ r ∈ selectedRequesters now e.2, ∃ t, r.timeout = some t ∧ now < t) := by
  refine ⟨?_, ?_⟩
  · unfold netStore.propagateResponse
    rw [hreq]
    exact propagateIds_eq chunk now rs.requesters hdl
  · intro e _
    have h3 : requesterCount.toNat = 3 := by decide
    refine ⟨?_, ?_, ?_, ?_⟩
    · simp only [selectedRequesters, h3]
      rw [List.take_eq_take]
      simp
    · simp [selectedRequesters, h3]
    · simp only [selectedRequesters, h3, List.length_take]
      exact Nat.min_le_left _ _
    · intro r hr
      have hmem := List.mem_of_mem_take hr
      have hu := (List.mem_filter.mp hmem).2
      unfold unexpired at hu
      cases ht : r.timeout with
      | none => simp [ht] at hu
      | some t =>
        simp only [ht, decide_eq_true_eq] at hu
        exact ⟨t, rfl, hu⟩

/-- C10, at a record with five requesters of the id 7, of which the third has expired at
the instant 100: the StoreMessage goes to the peers 1, 2 and 4. -/
theorem C10_propagateResponse_witness :
    (netStore.propagateResponse { exChunk with req := some exFive } 100).1
      = [Event.store ⟨1, 1⟩ (propagatedMsg exChunk 7), Event.store ⟨2, 2⟩ (propagatedMsg exChunk 7),
         Event.store ⟨4, 4⟩ (propagatedMsg exChunk 7)] ∧
    (propagatedMsg exChunk 7).Id = 7 ∧ (propagatedMsg exChunk 7).SData = exChunk.SData :=
  ⟨(congrArg Prod.fst
      (C10_propagateResponse { exChunk with req := some exFive } exFive 100 rfl
        (by decide)).1).trans (by decide),
   by decide, by decide⟩

/-! ## Delivery or PeersOffer -/

/-- A uint64 survives the conversion to int64 and back. -/
theorem toUint64_toInt64 (x : Nat) (hx : x < 2 ^ 64) : toUint64 (toInt64 x) = x := by
  unfold toUint64 toInt64
  rw [Nat.mod_eq_of_lt hx]
  split <;> omega

theorem filterMap_skip_eq (l : List peer) (c : peer → Bool) (f : peer → Event) :
    l.filterMap (fun p => if c p = true then none else some (f p))
      = (l.filter (fun p => !c p)).map f := by
  induction l with
  | nil => rfl
  | cons a rest ih =>
    cases hc : c a <;> simp [List.filterMap_cons, List.filter_cons, hc, ih]

/-- Without content and with no record other than one in Searching state, `get` returns a
chunk without content whose record is in Searching state. -/
theorem netStore.get_searching (s : netStore) (key : Key)
    (hno : ∀ chunk, s.localStore.Get key = some chunk →
      chunk.SData = none ∧ ∀ rs, chunk.req = some rs → rs.status = reqSearching) :
    (s.get key).2.SData = none ∧
    ∃ rs, (s.get key).2.req = some rs ∧ rs.status = reqSearching := by
  obtain ⟨-, hgd, rs, hrs, hold⟩ := netStore.get_chunk s key
  cases hget : s.localStore.Get key with
  | none =>
    rw [hget] at hgd hold
    refine ⟨hgd, rs, hrs, ?_⟩
    rcases hold with ho | ⟨-, hnew⟩
    · cases ho
    · rw [hnew]; rfl
  | some c =>
    rw [hget] at hgd hold
    refine ⟨hgd.trans (hno c hget).1, rs, hrs, ?_⟩
    rcases hold with ho | ⟨-, hnew⟩
    · exact (hno c hget).2 rs ho
    · rw [hnew]; rfl

/-- C11 (as the claim states it) fails at the store `exS3` (after a `Get` miss, a retrieve
request and a `Put` of a chunk without content): the key has no content but its record is
Found, and a retrieve request gets a StoreMessage without content and no PeersOffer. -/
theorem C11_counterexample :
    exS3.hasContent exAsk.Key = false ∧
    (exS3.addRetrieveRequest exHive exAsk 5 5).sent
      = [Event.store exPeerA
          { Key := exKey, Id := 7, SData := none, requestTimeout := some 10000000005,
            peer := none }] := by
  decide

theorem isRequester_mapSet (m : List (Int × List retrieveRequestMsgData)) (id : Int)
    (r : retrieveRequestMsgData) (a : Nat) :
    isRequester (mapSet m id (mapGet m id ++ [r])) a
      = (isRequester m a || decide (r.peer.addr = a)) := by
  induction m with
  | nil => simp [mapSet, mapGet, isRequester]
  | cons e rest ih =>
    obtain ⟨k, w⟩ := e
    by_cases hk : k = id
    · simp only [mapSet, mapGet, hk, if_true, isRequester, List.any_cons, List.any_append,
        List.any_nil, Bool.or_false]
      cases w.any (fun recipient => decide (recipient.peer.addr = a)) <;>
        cases rest.any (fun e => e.2.any (fun recipient => decide (recipient.peer.addr = a))) <;>
        simp
    · simp only [isRequester] at ih
      simp only [mapSet, mapGet, hk, if_false, isRequester, List.any_cons, ih, Bool.or_assoc]

/-- The requesters of the record that `get` returns are the requesters recorded for the key
(none when `get` makes the record). -/
theorem netStore.get_requesters (s : netStore) (key : Key) (rs : requestStatus)
    (hrs : (s.get key).2.req = some rs) : rs.requesters = s.requestersOf key := by
  obtain ⟨-, -, rs0, hrs0, hold⟩ := netStore.get_chunk s key
  rw [hrs] at hrs0
  have hr : rs = rs0 := Option.some.inj hrs0
  subst hr
  unfold netStore.requestersOf
  cases hget : s.localStore.Get key with
  | none =>
    rw [hget] at hold
    rcases hold with ho | ⟨-, hnew⟩
    · cases ho
    · rw [hnew]; rfl
  | some c =>
    rw [hget] at hold
    rcases hold with ho | ⟨ho, hnew⟩
    · have ho : c.req = some rs := ho
      simp [ho]
    · have ho : c.req = none := ho
      simp [ho, hnew, newRequestStatus]

/-- C11, amended: for a retrieve request with a uint64 id, if the key's entry has content,
`addRetrieveRequest` sends one StoreMessage with that content, the key and the id of the
ask to the asking peer, and nothing else; if the entry has no content and its record, if
any, is in Searching state, it sends one PeersOffer with the key and the id of the ask and
the peers the hive returns for `int(req.MaxPeers)` to the asking peer, then a RetrieveAsk
with the same key, id and deadline to every peer the hive returns whose address is neither
that of a requester recorded before nor that of the asking peer, in the order of the hive,
and nothing else. The number `int(req.MaxPeers)` is `MaxPeers` below `2 ^ 63` and
`MaxPeers - 2 ^ 64`, a negative number, from `2 ^ 63` on. -/
theorem C11_deliver_or_offer (s : netStore) (h : hive) (req : retrieveRequestMsgData)
    (now now2 : Time) (hid : req.Id < 2 ^ 64) :
    (∀ chunk d, s.localStore.Get req.Key = some chunk → chunk.SData = some d →
      (s.addRetrieveRequest h req now now2).sent
        = [Event.store req.peer
            { Key := req.Key, Id := req.Id, SData := some d, requestTimeout := req.timeout,
              peer := none }]) ∧
    ((∀ chunk, s.localStore.Get req.Key = some chunk →
        chunk.SData = none ∧ ∀ rs, chunk.req = some rs → rs.status = reqSearching) →
      (s.addRetrieveRequest h req now now2).sent
        = Event.peers req.peer
            { Peers := (h req.Key (toInt req.MaxPeers)).map peer.peerAddr, Key := req.Key,
              Id := req.Id, timeout := some (committedDeadline now now2) } ::
          ((h req.Key 0).filter (fun p =>
              !isRequester (s.requestersOf req.Key) p.addr
                && !decide (p.addr = req.peer.addr))).map
            (fun p => Event.retrieve p
              { Key := req.Key, Id := req.Id, MaxPeers := 0,
                timeout := some (committedDeadline now now2), peer := default })) ∧
    (req.MaxPeers < 2 ^ 63 → toInt req.MaxPeers = (req.MaxPeers : Int)) ∧
    (2 ^ 63 ≤ req.MaxPeers → req.MaxPeers < 2 ^ 64 →
      toInt req.MaxPeers = (req.MaxPeers : Int) - 2 ^ 64) := by
  obtain ⟨hk, hgd, rs0, hrs0, -⟩ := netStore.get_chunk s req.Key
  refine ⟨?_, ?_, ?_, ?_⟩
  rotate_left 2
  · intro hlt
    have hlt2 : req.MaxPeers < 2 ^ 64 := by omega
    unfold toInt toInt64
    rw [Nat.mod_eq_of_lt hlt2, if_pos hlt]
  · intro hge hlt2
    unfold toInt toInt64
    rw [Nat.mod_eq_of_lt hlt2, if_neg (Nat.not_lt.mpr hge)]
  · intro chunk d hget hd
    have hsd : (s.get req.Key).2.SData = some d := by
      rw [hgd, hget]; exact hd
    rw [netStore.addRetrieveRequest_of_some s h req now now2 rs0 d hsd hrs0]
    simp [netStore.deliver, hsd]
  · intro hno
    obtain ⟨hsd, rs, hrs, hst⟩ := netStore.get_searching s req.Key hno
    rw [netStore.addRetrieveRequest_of_none s h req now now2 rs hsd hrs hst]
    simp only [netStore.peers, askWithDeadline, List.singleton_append, hk,
      toUint64_toInt64 req.Id hid]
    rw [filterMap_skip_eq]
    congr 2
    refine List.filter_congr ?_
    intro p _
    have hr := netStore.get_requesters s req.Key rs hrs
    have hm := isRequester_mapSet rs.requesters (toInt64 req.Id)
      ⟨req.Key, req.Id, req.MaxPeers, some (now + 10 * second), req.peer⟩ p.addr
    simp only [netStore.addRequester]
    rw [hm, hr]
    by_cases hpa : p.addr = req.peer.addr
    · simp [hpa]
    · have hpa2 : ¬ req.peer.addr = p.addr := fun hx => hpa hx.symm
      simp [hpa, hpa2]

/-- C11 amended, at the store that holds `exChunk` (the content goes to the asking peer A),
at the empty store (a PeersOffer to A, then the ask to B only), and for an ask whose
`MaxPeers` is `2 ^ 63`, which `int` turns negative: the hive `exHiveMax` then offers no
peer. -/
theorem C11_deliver_or_offer_witness :
    (exFilled.addRetrieveRequest exHive exAsk 5 5).sent
      = [Event.store exPeerA
          { Key := exKey, Id := 7, SData := exChunk.SData, requestTimeout := some 1000,
            peer := none }] ∧
    (netStore.empty.addRetrieveRequest exHive exAsk 5 5).sent
      = [Event.peers exPeerA
           { Peers := [⟨10⟩, ⟨20⟩], Key := exKey, Id := 7,
             timeout := some 3000000005 },
         Event.retrieve exPeerB
           { Key := exKey, Id := 7, MaxPeers := 0,
             timeout := some 3000000005, peer := default }] ∧
    (netStore.empty.addRetrieveRequest exHiveMax { exAsk with MaxPeers := 2 ^ 63 } 5 5).sent
      = [Event.peers exPeerA
           { Peers := [], Key := exKey, Id := 7, timeout := some 3000000005 },
         Event.retrieve exPeerB
           { Key := exKey, Id := 7, MaxPeers := 0,
             timeout := some 3000000005, peer := default }] :=
  ⟨(C11_deliver_or_offer exFilled exHive exAsk 5 5 (by decide)).1 exChunk
      ⟨[3, 0, 0, 0, 0, 0, 0, 0, 104, 105, 33], []⟩ (by decide) rfl,
   ((C11_deliver_or_offer netStore.empty exHive exAsk 5 5 (by decide)).2.1
      (fun c hc => by cases hc)).trans (by decide),
   ((C11_deliver_or_offer netStore.empty exHiveMax { exAsk with MaxPeers := 2 ^ 63 } 5 5
      (by decide)).2.1 (fun c hc => by cases hc)).trans (by decide)⟩

/-! ## addStoreRequest and Put -/

theorem propagateIds_congr (c1 c2 : Chunk) (now : Time) (hk : c1.Key = c2.Key)
    (hd : c1.SData = c2.SData) (m : List (Int × List retrieveRequestMsgData)) :
    propagateIds c1 now m = propagateIds c2 now m := by
  induction m with
  | nil => rfl
  | cons a rest ih =>
    obtain ⟨id, rqs⟩ := a
    simp only [propagateIds, hk, hd, ih]

theorem netStore.propagateResponse_congr (c1 c2 : Chunk) (now : Time) (hk : c1.Key = c2.Key)
    (hd : c1.SData = c2.SData) (hr : c1.req = c2.req) :
    netStore.propagateResponse c1 now = netStore.propagateResponse c2 now := by
  unfold netStore.propagateResponse
  rw [hr]
  cases c2.req with
  | none => rfl
  | some rs => exact propagateIds_congr c1 c2 now hk hd rs.requesters

theorem netStore.store_filter_announce (h : hive) (e : Chunk) :
    (netStore.store h e).filter (fun ev => !ev.isAnnounce) = [] := by
  rw [List.filter_eq_nil_iff]
  intro ev hev
  unfold netStore.store at hev
  rw [List.mem_filterMap] at hev
  obtain ⟨p, -, hp⟩ := hev
  cases hsrc : e.source with
  | none =>
    simp only [hsrc, Option.some.injEq] at hp
    subst hp; simp [Event.isAnnounce]
  | some src =>
    simp only [hsrc] at hp
    split at hp
    · simp only [Option.some.injEq] at hp
      subst hp; simp [Event.isAnnounce]
    · cases hp

theorem localStore.Get_Put_merged (ls : localStore) (x1 x2 : Chunk) (hk : x1.Key = x2.Key)
    (hm : x1.merged = x2.merged) (k : Key) :
    ((ls.Put x1).Get k).map Chunk.merged = ((ls.Put x2).Get k).map Chunk.merged := by
  by_cases hxk : x1.Key = k
  · rw [localStore.Get_Put_of_key _ _ _ hxk, localStore.Get_Put_of_key _ _ _ (hk ▸ hxk)]
    simp [hm]
  · rw [localStore.Get_Put_other _ _ _ hxk, localStore.Get_Put_other _ _ _ (hk ▸ hxk)]

theorem localStore.Put_Put_mk (ls : localStore) (c : Chunk) (K : Key) (D : Option Slice)
    (Z : Int) (S : Option peer) (R : Option requestStatus) (h : c.Key = K) :
    (ls.Put c).Put ⟨K, D, Z, S, R⟩ = ls.Put ⟨K, D, Z, S, R⟩ :=
  localStore.Put_Put ls c ⟨K, D, Z, S, R⟩ h

/-- The method `put` does the same to the content and the record of the cache entries, closes
and propagates the same, and panics the same, on two entries that differ in size and source
only. -/
theorem netStore.put_congr (s : netStore) (h : hive) (e1 e2 : Chunk) (now : Time)
    (hk : e1.Key = e2.Key) (hd : e1.SData = e2.SData) (hr : e1.req = e2.req) :
    (∀ k, ((s.put h e1 now).self.localStore.Get k).map Chunk.merged
        = ((s.put h e2 now).self.localStore.Get k).map Chunk.merged) ∧
    (s.put h e1 now).sent.filter (fun ev => !ev.isAnnounce)
      = (s.put h e2 now).sent.filter (fun ev => !ev.isAnnounce) ∧
    (s.put h e1 now).panic = (s.put h e2 now).panic := by
  cases hr2 : e2.req with
  | none =>
    have hr1 : e1.req = none := hr.trans hr2
    simp only [netStore.put, hr1, hr2, netStore.store_filter_announce]
    refine ⟨fun k => localStore.Get_Put_merged _ _ _ hk ?_ k, trivial, trivial⟩
    simp [Chunk.merged, hk, hd, hr1, hr2]
  | some rq =>
    have hr1 : e1.req = some rq := hr.trans hr2
    by_cases hs : rq.status = reqSearching
    · by_cases hc : rq.C = true
      · simp only [netStore.put, hr1, hr2, hs, hc, if_true, localStore.set, hk]
        refine ⟨fun k => ?_, trivial, trivial⟩
        rw [localStore.Put_Put_mk _ e1 _ _ _ _ _ hk, localStore.Put_Put_mk _ e2 _ _ _ _ _ rfl]
        refine localStore.Get_Put_merged _ _ _ ?_ ?_ k
        · rfl
        · simp [Chunk.merged, hd]
      · have hp := netStore.propagateResponse_congr
          ⟨e2.Key, e1.SData, e1.Size, e1.source,
            some { rq with status := reqFound, C := true }⟩
          ⟨e2.Key, e2.SData, e2.Size, e2.source,
            some { rq with status := reqFound, C := true }⟩ now rfl hd rfl
        have hcf : rq.C = false := by
          cases hb : rq.C with
          | false => rfl
          | true => exact absurd hb hc
        simp only [netStore.put, hr1, hr2, hs, hcf, if_true, localStore.set, hk, hp,
          Bool.false_eq_true, if_false]
        refine ⟨fun k => ?_, trivial, trivial⟩
        rw [localStore.Put_Put_mk _ e1 _ _ _ _ _ hk, localStore.Put_Put_mk _ e2 _ _ _ _ _ rfl]
        refine localStore.Get_Put_merged _ _ _ ?_ ?_ k
        · rfl
        · simp [Chunk.merged, hd]
    · simp only [netStore.put, hr1, hr2, hs, if_false]
      refine ⟨fun k => localStore.Get_Put_merged _ _ _ hk ?_ k, trivial, trivial⟩
      simp [Chunk.merged, hk, hd, hr1, hr2]

/-- The length field of at least 8 bytes as the sum of its bytes, each at its weight; it is
below `2 ^ 64`. -/
theorem lengthField_of_bytes (l : List Nat) (hlen : 8 ≤ l.length) :
    lengthField l
      = byteAt (l.take 8) 0 + byteAt (l.take 8) 1 * 2 ^ 8 + byteAt (l.take 8) 2 * 2 ^ 16
        + byteAt (l.take 8) 3 * 2 ^ 24 + byteAt (l.take 8) 4 * 2 ^ 32
        + byteAt (l.take 8) 5 * 2 ^ 40 + byteAt (l.take 8) 6 * 2 ^ 48
        + byteAt (l.take 8) 7 * 2 ^ 56 ∧
    lengthField l < 2 ^ 64 := by
  rcases l with _ | ⟨a0, _ | ⟨a1, _ | ⟨a2, _ | ⟨a3, _ | ⟨a4, _ | ⟨a5, _ | ⟨a6, _ | ⟨a7, rest⟩⟩⟩⟩⟩⟩⟩⟩
  all_goals try (simp at hlen; done)
  simp only [lengthField, byteAt, List.take_succ_cons,
    List.take_zero, List.map_cons, List.map_nil, Nat.ofDigits_cons, Nat.ofDigits_nil,
    List.getD_cons_zero, List.getD_cons_succ, Nat.cast_id]
  have h0 := Nat.mod_lt a0 (show 256 > 0 by decide)
  have h1 := Nat.mod_lt a1 (show 256 > 0 by decide)
  have h2 := Nat.mod_lt a2 (show 256 > 0 by decide)
  have h3 := Nat.mod_lt a3 (show 256 > 0 by decide)
  have h4 := Nat.mod_lt a4 (show 256 > 0 by decide)
  have h5 := Nat.mod_lt a5 (show 256 > 0 by decide)
  have h6 := Nat.mod_lt a6 (show 256 > 0 by decide)
  have h7 := Nat.mod_lt a7 (show 256 > 0 by decide)
  generalize a0 % 256 = b0 at *
  generalize a1 % 256 = b1 at *
  generalize a2 % 256 = b2 at *
  generalize a3 % 256 = b3 at *
  generalize a4 % 256 = b4 at *
  generalize a5 % 256 = b5 at *
  generalize a6 % 256 = b6 at *
  generalize a7 % 256 = b7 at *
  constructor
  · ring
  · omega

/-- The decoder of the code, `int64(binary.LittleEndian.Uint64(b[0:8]))`, gives the length
field in the words of the specification. -/
theorem lengthPrefix_of_decode (l : List Nat) (hlen : 8 ≤ l.length) :
    toInt64 (littleEndianUint64 (l.take 8)) = lengthPrefix l := by
  obtain ⟨h1, h2⟩ := lengthField_of_bytes l hlen
  unfold littleEndianUint64 toInt64 lengthPrefix
  rw [← h1, Nat.mod_eq_of_lt h2]

/-- The decoding of the size succeeds when the capacity of the slice is at least 8, on the
first 8 bytes of the backing array. -/
theorem decodeSize_of_cap (b : Slice) (hcap : 8 ≤ b.cap) :
    decodeSize (some b) = some (lengthPrefix (b.bytes ++ b.spare)) := by
  have hn : ¬ b.cap < 8 := Nat.not_lt.mpr hcap
  have hl : 8 ≤ (b.bytes ++ b.spare).length := by
    simpa [Slice.cap] using hcap
  simp only [decodeSize, Slice.first8, hn, if_false]
  rw [lengthPrefix_of_decode _ hl]

/-- What `addStoreRequest` does when the size decodes to `z`: nothing when the key has
content, and otherwise the method `put` on the entry with the content of the message, the
size `z` and the sending peer as source. -/
theorem netStore.addStoreRequest_of_size (s : netStore) (h : hive) (req : storeRequestMsgData)
    (now : Time) (z : Int) (hdec : decodeSize req.SData = some z) :
    (s.localStore.Get req.Key = none →
      s.addStoreRequest h req now
        = { s.put h ⟨req.Key, req.SData, z, req.peer, none⟩ now with locked := true }) ∧
    (∀ chunk, s.localStore.Get req.Key = some chunk → chunk.SData = none →
      s.addStoreRequest h req now
        = { s.put h ⟨chunk.Key, req.SData, z, req.peer, chunk.req⟩ now with locked := true }) := by
  refine ⟨?_, ?_⟩
  · intro hget
    simp [netStore.addStoreRequest, hget, hdec]
  · intro chunk hget hsd
    simp [netStore.addStoreRequest, hget, hsd, hdec]

/-- C12: for a store message whose content has at least 8 bytes and a chunk `c` with the
key and the content of the message (and no record of its own), `addStoreRequest` and
`Put(c)` leave, under every key, entries with the same content and the same request record
(status, channel, requesters), close and propagate the same (they send the same apart from
announces) and panic the same; and when the key had no content, the entry that
`addStoreRequest` leaves has the content of the message, the sending peer as source and, as
size, the length field of the content: its first 8 bytes read as a little-endian 64-bit
integer. -/
theorem C12_addStoreRequest_as_Put (s : netStore) (h : hive) (req : storeRequestMsgData)
    (c : Chunk) (b : Slice) (now : Time)
    (hb : req.SData = some b) (hlen : 8 ≤ b.len)
    (hk : c.Key = req.Key) (hd : c.SData = req.SData) (hr : c.req = none) :
    (∀ k, ((s.addStoreRequest h req now).self.localStore.Get k).map Chunk.merged
        = ((s.Put h c now).self.localStore.Get k).map Chunk.merged) ∧
    (s.addStoreRequest h req now).sent.filter (fun ev => !ev.isAnnounce)
      = (s.Put h c now).sent.filter (fun ev => !ev.isAnnounce) ∧
    (s.addStoreRequest h req now).panic = (s.Put h c now).panic ∧
    (s.hasContent req.Key = false →
      ∃ x, (s.addStoreRequest h req now).self.localStore.Get req.Key = some x ∧
        x.source = req.peer ∧ x.Size = lengthPrefix b.bytes ∧
        x.SData = some b) := by
  have hl : 8 ≤ b.bytes.length := hlen
  have hdec : decodeSize req.SData = some (lengthPrefix b.bytes) := by
    obtain ⟨hf, hlt⟩ := lengthField_of_bytes b.bytes hl
    have hcap : ¬ b.cap < 8 := by unfold Slice.cap; omega
    rw [hb]
    simp only [decodeSize, Slice.first8, hcap, if_false, List.take_append_of_le_length hl]
    unfold littleEndianUint64 toInt64 lengthPrefix
    rw [← hf, Nat.mod_eq_of_lt hlt]
  obtain ⟨hA0, hA1⟩ := netStore.addStoreRequest_of_size s h req now _ hdec
  cases hget : s.localStore.Get req.Key with
  | none =>
    have hA := hA0 hget
    have hP : s.Put h c now = s.put h c now := by
      simp [netStore.Put, hk, hget]
    obtain ⟨g1, g2, g3⟩ := netStore.put_congr s h
      ⟨req.Key, req.SData, lengthPrefix b.bytes, req.peer, none⟩ c now
      hk.symm hd.symm hr.symm
    rw [hA, hP]
    refine ⟨g1, g2, g3, fun _ => ?_⟩
    obtain ⟨x, hx, hxk, hxd, hxz, hxs, -⟩ := netStore.put_self s h
      ⟨req.Key, req.SData, lengthPrefix b.bytes, req.peer, none⟩ now
    refine ⟨x, ?_, hxs, hxz, hxd.trans hb⟩
    simp only [hx]
    exact localStore.Get_Put_of_key _ _ _ hxk
  | some chunk =>
    have hck : chunk.Key = req.Key := localStore.Get_key _ _ _ hget
    cases hsd : chunk.SData with
    | some d =>
      have hA : s.addStoreRequest h req now
          = { self := s, sent := [], panic := none, locked := true } := by
        simp [netStore.addStoreRequest, hget, hsd]
      have hP : s.Put h c now = { self := s, sent := [], panic := none, locked := false } := by
        simp [netStore.Put, hk, hget, hsd]
      rw [hA, hP]
      refine ⟨fun _ => rfl, rfl, rfl, fun hno => ?_⟩
      simp [netStore.hasContent, hget, hsd] at hno
    | none =>
      have hA := hA1 chunk hget hsd
      have hP : s.Put h c now
          = s.put h ⟨chunk.Key, c.SData, c.Size, chunk.source, chunk.req⟩ now := by
        simp [netStore.Put, hk, hget, hsd]
      obtain ⟨g1, g2, g3⟩ := netStore.put_congr s h
        ⟨chunk.Key, req.SData, lengthPrefix b.bytes, req.peer, chunk.req⟩
        ⟨chunk.Key, c.SData, c.Size, chunk.source, chunk.req⟩ now rfl hd.symm rfl
      rw [hA, hP]
      refine ⟨g1, g2, g3, fun _ => ?_⟩
      obtain ⟨x, hx, hxk, hxd, hxz, hxs, -⟩ := netStore.put_self s h
        ⟨chunk.Key, req.SData, lengthPrefix b.bytes, req.peer, chunk.req⟩ now
      refine ⟨x, ?_, hxs, hxz, hxd.trans hb⟩
      simp only [hx]
      exact localStore.Get_Put_of_key _ _ _ (hxk.trans hck)

/-- C12, at the store `exS1` (a placeholder in Searching state) and the store message of
peer B with the content "hello-chunk" behind the length 11: the entry gets the content, the
size 11 and the source B, the record becomes Found and its channel is closed, as with
`Put`. And at the empty store with the message `exWide`, whose length field has the bytes
1, 2, 3, 0, 0, 0, 0, 128: the size is `1 + 2 * 256 + 3 * 256 ^ 2 + 128 * 256 ^ 7 - 2 ^ 64`. -/
theorem C12_addStoreRequest_as_Put_witness :
    (∃ x, (exS1.addStoreRequest exHive exHello 5).self.localStore.Get exKey = some x ∧
      x.source = some exPeerB ∧ x.Size = 11 ∧ x.SData = exHello.SData) ∧
    (exS1.addStoreRequest exHive exHello 5).sent = [Event.close exKey] ∧
    (exS1.addStoreRequest exHive exHello 5).self.statusOf exKey = some reqFound ∧
    (exS1.Put exHive { exNoContent with SData := exHello.SData } 5).self.statusOf exKey
      = some reqFound ∧
    (∃ x, (netStore.empty.addStoreRequest exHive exWide 5).self.localStore.Get exKey = some x ∧
      x.source = some exPeerB ∧ x.Size = -9223372036854578687 ∧ x.SData = exWide.SData) ∧
    ((netStore.empty.addStoreRequest exHive exWide 5).self.localStore.Get exKey).map
        (fun x => x.Size) = some (1 + 2 * 256 + 3 * 256 ^ 2 + 128 * 256 ^ 7 - 2 ^ 64) :=
  ⟨(C12_addStoreRequest_as_Put exS1 exHive exHello { exNoContent with SData := exHello.SData }
      ⟨[11, 0, 0, 0, 0, 0, 0, 0, 104, 101, 108, 108, 111, 45, 99, 104, 117, 110, 107], []⟩ 5
      rfl (by decide) rfl rfl rfl).2.2.2 (by decide),
   by decide, by decide, by decide,
   (C12_addStoreRequest_as_Put netStore.empty exHive exWide
      { exNoContent with SData := exWide.SData }
      ⟨[1, 2, 3, 0, 0, 0, 0, 128, 9], []⟩ 5
      rfl (by decide) rfl rfl rfl).2.2.2 (by decide),
   by decide⟩

/-! ## Content shorter than the length field -/

theorem propagateLoop_panic (msg : storeRequestMsgData) (now : Time)
    (l : List retrieveRequestMsgData) :
    ∀ counter : Int, (propagateLoop msg now counter l).2 ≠ some Panic.sliceBounds := by
  induction l with
  | nil => intro counter; simp [propagateLoop]
  | cons r rest ih =>
    intro counter
    unfold propagateLoop
    cases r.timeout with
    | none => simp
    | some t =>
      simp only
      split
      · split
        · simp
        · exact ih (counter - 1)
      · exact ih counter

theorem propagateIds_panic (chunk : Chunk) (now : Time)
    (m : List (Int × List retrieveRequestMsgData)) :
    (propagateIds chunk now m).2 ≠ some Panic.sliceBounds := by
  induction m with
  | nil => simp [propagateIds]
  | cons a rest ih =>
    obtain ⟨id, rqs⟩ := a
    have hl := propagateLoop_panic ⟨chunk.Key, toUint64 id, chunk.SData, none, none⟩ now rqs
      requesterCount
    simp only [propagateIds]
    split
    · rename_i e he
      intro hx
      simp only [Option.some.injEq] at hx
      rw [hx] at he
      exact hl he
    · exact ih

/-- The method `put` has no slice expression: it never panics with a slice-bounds error. -/
theorem netStore.put_panic (s : netStore) (h : hive) (e : Chunk) (now : Time) :
    (s.put h e now).panic ≠ some Panic.sliceBounds := by
  unfold netStore.put
  cases hreq : e.req with
  | none => simp
  | some rs =>
    by_cases hs : rs.status = reqSearching
    · cases hc : rs.C with
      | true => simp [hs, hc]
      | false =>
        simp only [hs, hc, if_true, Bool.false_eq_true, if_false]
        unfold netStore.propagateResponse
        exact propagateIds_panic _ now rs.requesters
    · simp [hs]

/-- C13 (as the claim states it) fails for store messages whose content has the 3 bytes
1, 2, 3. With the message `exShort` (capacity 3): at the store that holds `exChunk` the call
returns normally; at the store `exS1` (a placeholder) the call panics at the slice expression
of line 129 after line 128 has assigned the 3 bytes to the cached entry, which now counts as
having content. With the message `exShortSpare` (the same 3 bytes in a slice of capacity 16)
at the empty store the slice expression does not panic: the call returns normally, caches the
3 bytes with the size 197121 read from the backing array, and announces the key to peer A. -/
theorem C13_counterexample :
    exShort.SData = some ⟨[1, 2, 3], []⟩ ∧
    (exFilled.addStoreRequest exHive exShort 5).panic = none ∧
    (exS1.addStoreRequest exHive exShort 5).panic = some Panic.sliceBounds ∧
    exS1.hasContent exKey = false ∧
    (exS1.addStoreRequest exHive exShort 5).self.hasContent exKey = true ∧
    ((exS1.addStoreRequest exHive exShort 5).self.localStore.Get exKey).map
        (fun x => x.SData) = some (some ⟨[1, 2, 3], []⟩) ∧
    (exShortSpare.SData.map Slice.len = some 3 ∧ exShortSpare.SData.map Slice.cap = some 16) ∧
    (netStore.empty.addStoreRequest exHive exShortSpare 5).panic = none ∧
    ((netStore.empty.addStoreRequest exHive exShortSpare 5).self.localStore.Get exKey).map
        (fun x => (x.SData.map Slice.bytes, x.Size)) = some (some [1, 2, 3], 197121) ∧
    (netStore.empty.addStoreRequest exHive exShortSpare 5).sent
      = [Event.storeRequest exPeerA exKey] := by
  decide

/-- C13, amended: if the key's entry has content, `addStoreRequest` returns normally and
leaves the store as it is, sending nothing, whatever the content of the message. For a store
message whose content is a nil slice or a slice of capacity below 8 (so of fewer than 8
bytes): if the key is absent `addStoreRequest` panics at the slice expression and leaves the
store as it is, sending nothing; if the key's entry is a placeholder it panics at the slice
expression, sends nothing (closes no channel) and leaves the record, the size and the
source of the entry and the entries of all other keys as they are. For a store message
whose content is a slice of capacity 8 or more, however few bytes it has, `addStoreRequest`
does not panic at the slice expression. -/
theorem C13_short_content (s : netStore) (h : hive) (req : storeRequestMsgData) (now : Time) :
    (∀ chunk d, s.localStore.Get req.Key = some chunk → chunk.SData = some d →
      s.addStoreRequest h req now
        = { self := s, sent := [], panic := none, locked := true }) ∧
    ((∀ b, req.SData = some b → b.cap < 8) →
      (s.localStore.Get req.Key = none →
        s.addStoreRequest h req now
          = { self := s, sent := [], panic := some Panic.sliceBounds, locked := true }) ∧
      (∀ chunk, s.localStore.Get req.Key = some chunk → chunk.SData = none →
        (s.addStoreRequest h req now).panic = some Panic.sliceBounds ∧
        (s.addStoreRequest h req now).sent = [] ∧
        (∃ x, (s.addStoreRequest h req now).self.localStore.Get req.Key = some x ∧
          x.req = chunk.req ∧ x.Size = chunk.Size ∧ x.source = chunk.source) ∧
        ∀ k, req.Key ≠ k →
          (s.addStoreRequest h req now).self.localStore.Get k = s.localStore.Get k)) ∧
    (∀ b, req.SData = some b → 8 ≤ b.cap →
      (s.addStoreRequest h req now).panic ≠ some Panic.sliceBounds) := by
  have hfull : ∀ chunk d, s.localStore.Get req.Key = some chunk → chunk.SData = some d →
      s.addStoreRequest h req now
        = { self := s, sent := [], panic := none, locked := true } := by
    intro chunk d hget hsd
    simp [netStore.addStoreRequest, hget, hsd]
  refine ⟨hfull, fun hshort => ?_, ?_⟩
  · have hdec : decodeSize req.SData = none := by
      cases hb : req.SData with
      | none => rfl
      | some b => simp [decodeSize, Slice.first8, hshort b hb]
    refine ⟨?_, ?_⟩
    · intro hget
      simp [netStore.addStoreRequest, hget, hdec]
    · intro chunk hget hsd
      have hck : chunk.Key = req.Key := localStore.Get_key _ _ _ hget
      have hA : s.addStoreRequest h req now
          = { self := ⟨s.localStore.Put ⟨chunk.Key, req.SData, chunk.Size, chunk.source,
                chunk.req⟩⟩,
              sent := [], panic := some Panic.sliceBounds, locked := true } := by
        simp [netStore.addStoreRequest, hget, hsd, hdec, localStore.set]
      rw [hA]
      refine ⟨rfl, rfl, ⟨_, localStore.Get_Put_of_key _ _ _ hck, rfl, rfl, rfl⟩, ?_⟩
      intro k hne
      refine localStore.Get_Put_other _ _ k ?_
      show chunk.Key ≠ k
      rw [hck]; exact hne
  · intro b hb hcap
    have hdec : ∃ z, decodeSize req.SData = some z := by
      rw [hb]
      simp [decodeSize, Slice.first8, Nat.not_lt.mpr hcap]
    obtain ⟨z, hz⟩ := hdec
    obtain ⟨hA0, hA1⟩ := netStore.addStoreRequest_of_size s h req now z hz
    cases hget : s.localStore.Get req.Key with
    | none =>
      rw [hA0 hget]
      exact netStore.put_panic s h _ now
    | some chunk =>
      cases hsd : chunk.SData with
      | some d => rw [hfull chunk d hget hsd]; simp
      | none =>
        rw [hA1 chunk hget hsd]
        exact netStore.put_panic s h _ now

/-- C13 amended, for the store message `exShort` (3 bytes, capacity 3) at the store that
holds `exChunk` (a normal return, nothing changes), at the empty store (a panic, the store
stays empty) and at the store `exS1` (a placeholder: a panic, nothing is sent); and for the
store message `exShortSpare` (3 bytes, capacity 16) at the empty store: no panic at the
slice expression. -/
theorem C13_short_content_witness :
    exFilled.addStoreRequest exHive exShort 5
      = { self := exFilled, sent := [], panic := none, locked := true } ∧
    netStore.empty.addStoreRequest exHive exShort 5
      = { self := netStore.empty, sent := [], panic := some Panic.sliceBounds,
          locked := true } ∧
    ((exS1.addStoreRequest exHive exShort 5).panic = some Panic.sliceBounds ∧
      (exS1.addStoreRequest exHive exShort 5).sent = []) ∧
    (netStore.empty.addStoreRequest exHive exShortSpare 5).panic ≠ some Panic.sliceBounds :=
  ⟨(C13_short_content exFilled exHive exShort 5).1 exChunk
      ⟨[3, 0, 0, 0, 0, 0, 0, 0, 104, 105, 33], []⟩ (by decide) rfl,
   ((C13_short_content netStore.empty exHive exShort 5).2.1
      (fun b hb => by cases hb; decide)).1 rfl,
   (fun w => ⟨w.1, w.2.1⟩)
     (((C13_short_content exS1 exHive exShort 5).2.1
        (fun b hb => by cases hb; decide)).2
        { exNoContent with req := some newRequestStatus } (by decide) rfl),
   (C13_short_content netStore.empty exHive exShortSpare 5).2.2
      ⟨[1, 2, 3], [0, 0, 0, 0, 0, 0, 0, 0, 0, 0, 0, 0, 0]⟩ rfl (by decide)⟩

/-! ## The announce -/

theorem filterMap_keep_eq (l : List peer) (c : peer → Prop) [DecidablePred c]
    (f : peer → Event) :
    l.filterMap (fun p => if c p then some (f p) else none)
      = (l.filter (fun p => decide (c p))).map f := by
  induction l with
  | nil => rfl
  | cons a rest ih =>
    by_cases ha : c a <;> simp [List.filterMap_cons, List.filter_cons, ha, ih]

/-- The method `store` announces the key to the announce targets, in the order of the hive. -/
theorem netStore.store_eq (h : hive) (e : Chunk) :
    netStore.store h e
      = (announceTargets h e.Key e.source).map (fun p => Event.storeRequest p e.Key) := by
  unfold netStore.store announceTargets
  generalize h e.Key 0 = l
  cases hsrc : e.source with
  | none =>
    induction l with
    | nil => rfl
    | cons a rest ih => simp [List.filterMap_cons, ih]
  | some src =>
    exact filterMap_keep_eq l (fun p => p.addr ≠ src.addr)
      (fun p => Event.storeRequest p e.Key)

/-- The method `put` on an entry without a record stores the entry and announces it. -/
theorem netStore.put_no_record (s : netStore) (h : hive) (e : Chunk) (now : Time)
    (hr : e.req = none) :
    s.put h e now
      = { self := ⟨s.localStore.Put e⟩,
          sent := (announceTargets h e.Key e.source).map (fun p => Event.storeRequest p e.Key),
          panic := none, locked := false } := by
  simp [netStore.put, hr, netStore.store_eq]

/-- C14 (as the claim states it) fails at the store `exS3` (after a `Get` miss, a retrieve
request and a `Put` of a chunk without content): the record of the key is Found, so no
search is pending, `Put(exChunk)` stores the content, the hive returns the peers A and B and
the chunk has no source, but no announce is sent. -/
theorem C14_counterexample :
    exS3.statusOf exKey = some reqFound ∧ exS3.hasContent exKey = false ∧
    (exS3.Put exHive exChunk 5).self.hasContent exKey = true ∧
    (exS3.Put exHive exChunk 5).sent = [] ∧
    announceTargets exHive exKey none = [exPeerA, exPeerB] := by
  decide

/-- C14, amended: when `Put` or `addStoreRequest` (of content whose slice has a capacity of
at least 8, as all content of at least 8 bytes has) stores
a chunk whose cache entry has no request record (the key is absent, or a placeholder
without record), the announce goes to exactly the announce targets, in the order of the
hive: the peers the hive returns for the key whose address differs from the address of the
source of the stored chunk (the source of the chunk put, the source of the placeholder, or
the sending peer of the store message), all of them when there is no source; a peer with
the address of the source is never among them. -/
theorem C14_announce (s : netStore) (h : hive) (now : Time) :
    (∀ entry : Chunk, s.localStore.Get entry.Key = none → entry.req = none →
      (s.Put h entry now).sent
        = (announceTargets h entry.Key entry.source).map
            (fun p => Event.storeRequest p entry.Key)) ∧
    (∀ entry chunk : Chunk, s.localStore.Get entry.Key = some chunk → chunk.SData = none →
      chunk.req = none →
      (s.Put h entry now).sent
        = (announceTargets h entry.Key chunk.source).map
            (fun p => Event.storeRequest p entry.Key)) ∧
    (∀ (req : storeRequestMsgData) (b : Slice), req.SData = some b → 8 ≤ b.cap →
      (∀ chunk, s.localStore.Get req.Key = some chunk →
        chunk.SData = none ∧ chunk.req = none) →
      (s.addStoreRequest h req now).sent
        = (announceTargets h req.Key req.peer).map
            (fun p => Event.storeRequest p req.Key)) ∧
    (∀ key src p, p ∈ announceTargets h key (some src) → p.addr ≠ src.addr) ∧
    (∀ key, announceTargets h key none = h key 0) := by
  refine ⟨?_, ?_, ?_, ?_, ?_⟩
  · intro entry hget hr
    have hP : s.Put h entry now = s.put h entry now := by simp [netStore.Put, hget]
    rw [hP, netStore.put_no_record s h entry now hr]
  · intro entry chunk hget hsd hr
    have hck : chunk.Key = entry.Key := localStore.Get_key _ _ _ hget
    have hP : s.Put h entry now
        = s.put h ⟨chunk.Key, entry.SData, entry.Size, chunk.source, chunk.req⟩ now := by
      simp [netStore.Put, hget, hsd]
    rw [hP, netStore.put_no_record s h
      ⟨chunk.Key, entry.SData, entry.Size, chunk.source, chunk.req⟩ now hr]
    simp only [hck]
  · intro req b hb hcap hno
    have hdec : decodeSize req.SData = some (lengthPrefix (b.bytes ++ b.spare)) := by
      rw [hb]; exact decodeSize_of_cap b hcap
    obtain ⟨hA0, hA1⟩ := netStore.addStoreRequest_of_size s h req now _ hdec
    cases hget : s.localStore.Get req.Key with
    | none =>
      rw [hA0 hget, netStore.put_no_record s h _ now rfl]
    | some chunk =>
      obtain ⟨hsd, hr⟩ := hno chunk hget
      have hck : chunk.Key = req.Key := localStore.Get_key _ _ _ hget
      rw [hA1 chunk hget hsd, netStore.put_no_record s h
        ⟨chunk.Key, req.SData, lengthPrefix (b.bytes ++ b.spare), req.peer, chunk.req⟩ now hr]
      simp only [hck]
  · intro key src p hp
    have := (List.mem_filter.mp hp).2
    simpa using this
  · intro key
    simp [announceTargets]

/-- C14 amended, at the empty store: `Put(exChunk)` (no source) announces the key to A and
B, and the store message `exHello` of peer B is announced to A only. -/
theorem C14_announce_witness :
    (netStore.empty.Put exHive exChunk 5).sent
      = [Event.storeRequest exPeerA exKey, Event.storeRequest exPeerB exKey] ∧
    (netStore.empty.addStoreRequest exHive exHello 5).sent
      = [Event.storeRequest exPeerA exKey] :=
  ⟨((C14_announce netStore.empty exHive 5).1 exChunk rfl rfl).trans (by decide),
   ((C14_announce netStore.empty exHive 5).2.2.1 exHello
      ⟨[11, 0, 0, 0, 0, 0, 0, 0, 104, 101, 108, 108, 111, 45, 99, 104, 117, 110, 107], []⟩
      rfl (by decide) (fun c hc => by cases hc)).trans (by decide)⟩

/-! ## A second Get -/

/-- C15 (as the claim states it) fails at the store `exS1`, the empty store after a `Get`
miss: the second `Get` for the key, still without content, sends a RetrieveAsk to the peers
A and B again. -/
theorem C15_counterexample :
    netStore.empty.localStore.Get exKey = none ∧
    exS1 = (netStore.empty.Get exHive exKey 5 0).self ∧
    exS1.hasContent exKey = false ∧
    (exS1.Get exHive exKey 9 5).sent
      = [Event.retrieve exPeerA
           { Key := exKey, Id := 9, MaxPeers := 0, timeout := some 3000000005,
             peer := default },
         Event.retrieve exPeerB
           { Key := exKey, Id := 9, MaxPeers := 0, timeout := some 3000000005,
             peer := default }] := by
  decide

/-- C15, amended: after a `Get` for a key absent from the cache, the cache holds under the
key an entry without content with a new request record (Searching, no requesters, channel
open); a second `Get` for the key leaves the store as it is (the same record, no new one)
and does not return at once, but it runs `startSearch` again: it sends a RetrieveAsk with
its own id and deadline to every peer the hive returns. -/
theorem C15_second_Get (s : netStore) (h h2 : hive) (key : Key) (id id2 : Int)
    (now now2 : Time) (habs : s.localStore.Get key = none) :
    (s.Get h key id now).self.localStore.Get key
      = some { Key := key, SData := none, Size := 0, source := none,
               req := some newRequestStatus } ∧
    newRequestStatus.status = reqSearching ∧
    ((s.Get h key id now).self.Get h2 key id2 now2).self = (s.Get h key id now).self ∧
    ((s.Get h key id now).self.Get h2 key id2 now2).returned = false ∧
    ((s.Get h key id now).self.Get h2 key id2 now2).sent
      = (h2 key 0).map (fun p => Event.retrieve p
          { Key := key, Id := toUint64 id2, MaxPeers := 0,
            timeout := some (now2 + searchTimeout), peer := default }) := by
  have h1 : (s.Get h key id now).self
      = ⟨s.localStore.Put ⟨key, none, 0, none, some newRequestStatus⟩⟩ := by
    simp [netStore.Get, netStore.get, habs, netStore.startSearch, localStore.set,
      localStore.memStorePut, localStore.Put_Put, newRequestStatus, reqSearching]
  have hg : (s.localStore.Put ⟨key, none, 0, none, some newRequestStatus⟩).Get key
      = some ⟨key, none, 0, none, some newRequestStatus⟩ :=
    localStore.Get_Put_of_key _ _ _ rfl
  have hg2 : (⟨s.localStore.Put ⟨key, none, 0, none, some newRequestStatus⟩⟩ : netStore).get key
      = (⟨s.localStore.Put ⟨key, none, 0, none, some newRequestStatus⟩⟩,
         ⟨key, none, 0, none, some newRequestStatus⟩) := by
    simp only [netStore.get, hg]
  rw [h1, netStore.Get_of_none _ h2 key id2 now2 (by rw [hg2]),
    hg2, netStore.startSearch_self _ _ _ newRequestStatus _ _ rfl]
  refine ⟨hg, rfl, ?_, rfl, ?_⟩
  · simp only [localStore.Put_Put_mk _ _ _ _ _ _ _ rfl]
    rfl
  · simp only [newRequestStatus, isRequester, List.any_nil, Bool.false_eq_true, if_false]
    exact congrFun (List.filterMap_eq_map _) (h2 key 0)

/-- C15 amended, at the empty store: the second `Get` leaves the store `exS1` as it is and
asks the peers A and B again. -/
theorem C15_second_Get_witness :
    (exS1.Get exHive exKey 9 5).self = exS1 ∧
    (exS1.Get exHive exKey 9 5).sent.length = 2 :=
  ⟨(C15_second_Get netStore.empty exHive exHive exKey 5 9 0 5 rfl).2.2.1,
   (congrArg List.length
      (C15_second_Get netStore.empty exHive exHive exKey 5 9 0 5 rfl).2.2.2.2).trans
      (by decide)⟩

/-! ## The requesters of one id -/

theorem mapGet_mapSet (m : List (Int × List retrieveRequestMsgData)) (id : Int)
    (v : List retrieveRequestMsgData) : mapGet (mapSet m id v) id = v := by
  induction m with
  | nil => simp [mapSet, mapGet]
  | cons a rest ih =>
    obtain ⟨k, w⟩ := a
    by_cases hk : k = id
    · simp [mapSet, mapGet, hk]
    · simp [mapSet, mapGet, hk, ih]

/-- C16: the code does not do what the claim and the doc comment of `addRequester` say.
`addRequester` appends the request to the list of its id whatever the length of the list,
and after four retrieve requests for one key under the id 7, of four peers, on the empty
store, four requesters are recorded under the id 7. -/
theorem C16_four_requesters :
    (∀ (rs : requestStatus) (req : retrieveRequestMsgData),
      mapGet (netStore.addRequester rs req).requesters (toInt64 req.Id)
        = mapGet rs.requesters (toInt64 req.Id) ++ [req]) ∧
    ((runOps netStore.empty exFourAsks).1.requestersOf exKey).map
        (fun e => (e.1, e.2.map (fun r => r.peer.addr)))
      = [(7, [1, 2, 3, 4])] ∧
    (3 : Int) = requesterCount := by
  refine ⟨fun rs req => ?_, by decide, by decide⟩
  simp [netStore.addRequester, mapGet_mapSet]

/-! ## The lock -/

theorem netStore.put_locked (s : netStore) (h : hive) (e : Chunk) (now : Time) :
    (s.put h e now).locked = false := by
  unfold netStore.put
  cases e.req with
  | none => rfl
  | some rq =>
    simp only
    split
    · split <;> rfl
    · rfl

/-- C17: the code does not do what the claim says. `Put` and `Get` (the latter calls
`startSearch`, whose comment says the caller holds the lock) run without `self.lock`, for
every store and every argument; `addStoreRequest` and `addRetrieveRequest` hold it. -/
theorem C17_Put_Get_without_lock (s : netStore) (h : hive) (c : Chunk) (key : Key) (id : Int)
    (sreq : storeRequestMsgData) (rreq : retrieveRequestMsgData) (now now2 : Time) :
    (s.Put h c now).locked = false ∧ (s.Get h key id now).locked = false ∧
    (s.addStoreRequest h sreq now).locked = true ∧
    (s.addRetrieveRequest h rreq now now2).locked = true := by
  refine ⟨?_, ?_, ?_, ?_⟩
  · rcases netStore.Put_cases s h c now with ⟨-, he⟩ | ⟨-, e, -, -, he⟩
    · rw [he]
    · rw [he]; exact netStore.put_locked s h e now
  · unfold netStore.Get
    simp only
    split <;> rfl
  · unfold netStore.addStoreRequest
    split
    · split <;> rfl
    · split
      · split <;> rfl
      · rfl
  · obtain ⟨rs, hrs, hc | hc | hc⟩ := netStore.addRetrieveRequest_cases s rreq
    · obtain ⟨d, hsd⟩ := hc
      rw [netStore.addRetrieveRequest_of_some s h rreq now now2 rs d hsd hrs]
    · rw [netStore.addRetrieveRequest_of_none s h rreq now now2 rs hc.1 hrs hc.2]
    · rw [netStore.addRetrieveRequest_of_none_found s h rreq now now2 rs hc.1 hrs hc.2]

/-! ## The search -/

theorem isRequester_iff (m : List (Int × List retrieveRequestMsgData)) (a : Nat) :
    isRequester m a = true ↔ ∃ e ∈ m, ∃ r ∈ e.2, r.peer.addr = a := by
  simp [isRequester]

/-- C18 (as the claim states it) fails at the store `exS2`, whose record for the key has the
peer A as a requester under the id 7 and no requester under the id 8: `startSearch` with the
id 8 and a hive that returns A and B asks B only. -/
theorem C18_counterexample :
    (exS2.requestersOf exKey).map (fun e => (e.1, e.2.map (fun r => r.peer)))
      = [(7, [exPeerA])] ∧
    mapGet (exS2.requestersOf exKey) 8 = [] ∧
    (exS2.localStore.Get exKey).map (fun c => (exS2.startSearch exHive c 8 (some 100)).sent)
      = some [Event.retrieve exPeerB
          { Key := exKey, Id := 8, MaxPeers := 0, timeout := some 100, peer := default }] := by
  decide

/-- C18, amended: for a chunk with a request record, `startSearch` sends the RetrieveAsk
with the key of the chunk, the id and the deadline to the peers the hive returns, in order,
whose address is not the address of a requester recorded under any id, and to no one else:
a candidate is asked if and only if no recorded requester, of whatever id, has its
address. -/
theorem C18_startSearch (s : netStore) (h : hive) (chunk : Chunk) (rs : requestStatus)
    (id : Int) (timeout : Option Time) (hr : chunk.req = some rs) :
    (s.startSearch h chunk id timeout).sent
      = ((h chunk.Key 0).filter (fun p => !isRequester rs.requesters p.addr)).map
          (fun p => Event.retrieve p
            { Key := chunk.Key, Id := toUint64 id, MaxPeers := 0, timeout := timeout,
              peer := default }) ∧
    (∀ p m, Event.retrieve p m ∈ (s.startSearch h chunk id timeout).sent ↔
      (p ∈ h chunk.Key 0 ∧ (¬ ∃ e ∈ rs.requesters, ∃ r ∈ e.2, r.peer.addr = p.addr) ∧
        m = { Key := chunk.Key, Id := toUint64 id, MaxPeers := 0, timeout := timeout,
              peer := default })) := by
  have hs : (s.startSearch h chunk id timeout).sent
      = ((h chunk.Key 0).filter (fun p => !isRequester rs.requesters p.addr)).map
          (fun p => Event.retrieve p
            { Key := chunk.Key, Id := toUint64 id, MaxPeers := 0, timeout := timeout,
              peer := default }) := by
    rw [netStore.startSearch_self s h chunk rs id timeout hr]
    exact filterMap_skip_eq _ _ _
  refine ⟨hs, ?_⟩
  intro p m
  rw [hs]
  simp only [List.mem_map, List.mem_filter, Bool.not_eq_true', Event.retrieve.injEq]
  constructor
  · rintro ⟨q, ⟨hq, hnr⟩, rfl, rfl⟩
    refine ⟨hq, ?_, rfl⟩
    intro hex
    have := (isRequester_iff rs.requesters q.addr).mpr hex
    rw [hnr] at this; cases this
  · rintro ⟨hp, hnr, rfl⟩
    refine ⟨p, ⟨hp, ?_⟩, rfl, rfl⟩
    cases hb : isRequester rs.requesters p.addr with
    | false => rfl
    | true => exact absurd ((isRequester_iff rs.requesters p.addr).mp hb) hnr

/-- C18 amended, at the store `exS2` with the id 7, under which A is recorded: B is asked,
A is not. -/
theorem C18_startSearch_witness :
    exS2.localStore.Get exKey = some exAsked ∧
    (exS2.startSearch exHive exAsked 7 (some 100)).sent
      = [Event.retrieve exPeerB
          { Key := exKey, Id := 7, MaxPeers := 0, timeout := some 100, peer := default }] :=
  ⟨by decide,
   (C18_startSearch exS2 exHive exAsked _ 7 (some 100) rfl).1.trans (by decide)⟩

/-! ## searchTimeout -/

/-- C19: `searchTimeout` returns the deadline of the ask when it is set and strictly earlier
than `now + searchTimeout`, and `now + searchTimeout` otherwise (also when the ask has no
deadline); its result is never later than `now + searchTimeout` nor than a set deadline of
the ask. -/
theorem C19_searchTimeout (rs : requestStatus) (req : retrieveRequestMsgData) (now : Time) :
    (∀ d, req.timeout = some d → d < now + searchTimeout →
      netStore.searchTimeout rs req now = some d) ∧
    (∀ d, req.timeout = some d → ¬ d < now + searchTimeout →
      netStore.searchTimeout rs req now = some (now + searchTimeout)) ∧
    (req.timeout = none → netStore.searchTimeout rs req now = some (now + searchTimeout)) ∧
    (∃ t, netStore.searchTimeout rs req now = some t ∧ t ≤ now + searchTimeout ∧
      ∀ d, req.timeout = some d → t ≤ d) := by
  refine ⟨?_, ?_, ?_, ?_⟩
  · intro d hd hlt
    simp [netStore.searchTimeout, hd, hlt]
  · intro d hd hlt
    simp [netStore.searchTimeout, hd, hlt]
  · intro hn
    simp [netStore.searchTimeout, hn]
  · cases hd : req.timeout with
    | none =>
      exact ⟨now + searchTimeout, by simp [netStore.searchTimeout, hd], le_refl _,
        fun d hd2 => by cases hd2⟩
    | some d =>
      by_cases hlt : d < now + searchTimeout
      · refine ⟨d, by simp [netStore.searchTimeout, hd, hlt], le_of_lt hlt, ?_⟩
        intro d2 hd2
        cases hd2; exact le_refl _
      · refine ⟨now + searchTimeout, by simp [netStore.searchTimeout, hd, hlt], le_refl _, ?_⟩
        intro d2 hd2
        cases hd2; exact le_of_not_lt hlt

/-- C19, for the ask `exAsk` (deadline 1000) at the instant 1, where the deadline of the ask
is the earlier one, and for an ask without deadline at the instant 5000, where
`now + searchTimeout` is returned. -/
theorem C19_searchTimeout_witness :
    netStore.searchTimeout newRequestStatus exAsk 1 = some 1000 ∧
    netStore.searchTimeout newRequestStatus { exAsk with timeout := none } 5000
      = some (5000 + searchTimeout) :=
  ⟨(C19_searchTimeout newRequestStatus exAsk 1).1 1000 rfl (by decide),
   (C19_searchTimeout newRequestStatus { exAsk with timeout := none } 5000).2.2.1 rfl⟩

/-! ## Deadlines of the recorded requesters -/

theorem deadlinesSet_mapGet (m : List (Int × List retrieveRequestMsgData)) (id : Int)
    (hm : deadlinesSet m) : ∀ r ∈ mapGet m id, r.timeout ≠ none := by
  induction m with
  | nil => intro r hr; simp [mapGet] at hr
  | cons a rest ih =>
    obtain ⟨k, w⟩ := a
    intro r hr
    by_cases hk : k = id
    · simp only [mapGet, hk, if_true] at hr
      exact hm (k, w) (List.mem_cons_self _ _) r hr
    · simp only [mapGet, hk, if_false] at hr
      exact ih (fun e he => hm e (List.mem_cons_of_mem _ he)) r hr

theorem deadlinesSet_mapSet (m : List (Int × List retrieveRequestMsgData)) (id : Int)
    (v : List retrieveRequestMsgData) (hm : deadlinesSet m)
    (hv : ∀ r ∈ v, r.timeout ≠ none) : deadlinesSet (mapSet m id v) := by
  induction m with
  | nil =>
    intro e he r hr
    simp only [mapSet, List.mem_singleton] at he
    subst he
    exact hv r hr
  | cons a rest ih =>
    obtain ⟨k, w⟩ := a
    have ih := ih (fun e he => hm e (List.mem_cons_of_mem _ he))
    intro e he r hr
    by_cases hk : k = id
    · simp only [mapSet, hk, if_true, List.mem_cons] at he
      rcases he with he | he
      · subst he; exact hv r hr
      · exact hm e (List.mem_cons_of_mem _ he) r hr
    · simp only [mapSet, hk, if_false, List.mem_cons] at he
      rcases he with he | he
      · subst he; exact hm (k, w) (List.mem_cons_self _ _) r hr
      · exact ih e he r hr

/-- The method `addRequester` keeps the deadlines set when the request has one. -/
theorem netStore.addRequester_deadlines (rs : requestStatus) (req : retrieveRequestMsgData)
    (hm : deadlinesSet rs.requesters) (hreq : req.timeout ≠ none) :
    deadlinesSet (netStore.addRequester rs req).requesters := by
  unfold netStore.addRequester
  refine deadlinesSet_mapSet _ _ _ hm ?_
  intro r hr
  rcases List.mem_append.mp hr with h1 | h1
  · exact deadlinesSet_mapGet _ _ hm r h1
  · simp only [List.mem_singleton] at h1
    subst h1; exact hreq

/-- What `put` leaves in the cache: one upsert of an entry with the key and the content of
the entry put, whose record, if any, has the requesters of the record of the entry put. -/
theorem netStore.put_self_requesters (s : netStore) (h : hive) (e : Chunk) (now : Time) :
    ∃ x : Chunk, (s.put h e now).self = ⟨s.localStore.Put x⟩ ∧ x.Key = e.Key ∧
      x.SData = e.SData ∧
      (∀ rs2, x.req = some rs2 → ∃ rs, e.req = some rs ∧ rs2.requesters = rs.requesters) := by
  unfold netStore.put
  cases hreq : e.req with
  | none => exact ⟨e, by simp [hreq]⟩
  | some rs =>
    by_cases hs : rs.status = reqSearching
    · by_cases hc : rs.C = true
      · refine ⟨⟨e.Key, e.SData, e.Size, e.source, some { rs with status := reqFound }⟩, ?_⟩
        simp [hs, hc, localStore.set, localStore.Put_Put]
      · refine ⟨⟨e.Key, e.SData, e.Size, e.source,
          some { rs with status := reqFound, C := true }⟩, ?_⟩
        simp [hs, hc, localStore.set, localStore.Put_Put]
    · exact ⟨e, by simp [hs, hreq]⟩

/-- The method `put` does not dereference a nil deadline when the requesters of the record of
the entry all have a deadline. -/
theorem netStore.put_no_nil (s : netStore) (h : hive) (e : Chunk) (now : Time)
    (hdl : ∀ rs, e.req = some rs → deadlinesSet rs.requesters) :
    (s.put h e now).panic ≠ some Panic.nilDereference := by
  unfold netStore.put
  cases hreq : e.req with
  | none => simp
  | some rs =>
    by_cases hs : rs.status = reqSearching
    · cases hc : rs.C with
      | true => simp [hs, hc]
      | false =>
        have hp : netStore.propagateResponse
            ⟨e.Key, e.SData, e.Size, e.source, some { rs with status := reqFound, C := true }⟩
            now
            = (propagatedTo ⟨e.Key, e.SData, e.Size, e.source,
                some { rs with status := reqFound, C := true }⟩ now rs.requesters, none) := by
          unfold netStore.propagateResponse
          exact propagateIds_eq _ now rs.requesters (hdl rs hreq)
        simp [hs, hc, hp]
    · simp [hs]

theorem netStore.InvDeadline_of_frame (s s2 : netStore) (key : Key) (hinv : s.InvDeadline)
    (hframe : ∀ k, key ≠ k → s2.localStore.Get k = s.localStore.Get k)
    (hat : ∀ c rs, s2.localStore.Get key = some c → c.req = some rs → c.SData = none →
      deadlinesSet rs.requesters) : s2.InvDeadline := by
  intro k c rs hget hreq hsd
  by_cases hk : key = k
  · subst hk; exact hat c rs hget hreq hsd
  · rw [hframe k hk] at hget
    exact hinv k c rs hget hreq hsd

/-- Under the invariant, the record of a chunk without content that `get` returns has a
deadline for every requester. -/
theorem netStore.get_deadlines (s : netStore) (key : Key) (hinv : s.InvDeadline)
    (hsd : (s.get key).2.SData = none) (rs : requestStatus)
    (hrs : (s.get key).2.req = some rs) : deadlinesSet rs.requesters := by
  obtain ⟨-, hgd, rs0, hrs0, hold⟩ := netStore.get_chunk s key
  rw [hrs] at hrs0
  have hr : rs = rs0 := Option.some.inj hrs0
  subst hr
  rcases hold with ho | ⟨-, hnew⟩
  · cases hget : s.localStore.Get key with
    | none => rw [hget] at ho; cases ho
    | some c0 =>
      rw [hget] at ho hgd
      exact hinv key c0 rs hget ho (hgd.symm.trans hsd)
  · rw [hnew]
    intro e he
    simp [newRequestStatus] at he

/-- The step of `Put` of a chunk without record and of `addStoreRequest`, from what they
have in common: nothing happens, or `put` runs on an entry without record, or `put` runs on
the placeholder of the key with new content. -/
theorem netStore.put_step_deadline (s : netStore) (h : hive) (e : Chunk) (now : Time)
    (hinv : s.InvDeadline)
    (he : e.req = none ∨
      ∃ chunk, s.localStore.Get e.Key = some chunk ∧ chunk.SData = none ∧ e.req = chunk.req) :
    (s.put h e now).self.InvDeadline ∧ (s.put h e now).panic ≠ some Panic.nilDereference := by
  have hdl : ∀ rs, e.req = some rs → deadlinesSet rs.requesters := by
    intro rs hrs
    rcases he with he | ⟨chunk, hget, hsd, hreq⟩
    · rw [he] at hrs; cases hrs
    · exact hinv e.Key chunk rs hget (hreq.symm.trans hrs) hsd
  refine ⟨?_, netStore.put_no_nil s h e now hdl⟩
  obtain ⟨x, hx, hxk, -, hxr⟩ := netStore.put_self_requesters s h e now
  refine netStore.InvDeadline_of_frame s _ e.Key hinv
    (fun k hk => netStore.put_other s h e now k hk) ?_
  intro c rs hget hreq _
  rw [hx] at hget
  have hg : (s.localStore.Put x).Get e.Key = some x := localStore.Get_Put_of_key _ _ _ hxk
  rw [hg] at hget
  have hcx : x = c := Option.some.inj hget
  subst hcx
  obtain ⟨rs1, hrs1, hrq⟩ := hxr rs hreq
  rw [hrq]
  exact hdl rs1 hrs1

/-- One operation, with no record in a `Put`, keeps the invariant and dereferences no nil
pointer. -/
theorem Op.step_deadline (s : netStore) (op : Op) (hinv : s.InvDeadline)
    (hop : op.putNoRecord) :
    (op.next s).InvDeadline ∧ op.panic s ≠ some Panic.nilDereference := by
  cases op with
  | Put h entry now =>
    simp only [Op.next, Op.panic]
    cases hget : s.localStore.Get entry.Key with
    | none =>
      have hP : s.Put h entry now = s.put h entry now := by simp [netStore.Put, hget]
      rw [hP]
      exact netStore.put_step_deadline s h entry now hinv (Or.inl hop)
    | some chunk =>
      cases hsd : chunk.SData with
      | some d =>
        have hP : s.Put h entry now = { self := s, sent := [], panic := none, locked := false } := by
          simp [netStore.Put, hget, hsd]
        rw [hP]
        exact ⟨hinv, by simp⟩
      | none =>
        have hck : chunk.Key = entry.Key := localStore.Get_key _ _ _ hget
        have hP : s.Put h entry now
            = s.put h ⟨chunk.Key, entry.SData, entry.Size, chunk.source, chunk.req⟩ now := by
          simp [netStore.Put, hget, hsd]
        rw [hP]
        refine netStore.put_step_deadline s h _ now hinv (Or.inr ⟨chunk, ?_, hsd, rfl⟩)
        show s.localStore.Get chunk.Key = some chunk
        rw [hck]; exact hget
  | Get h key id now =>
    simp only [Op.next, Op.panic]
    obtain ⟨hk, -, rs, hrs, -⟩ := netStore.get_chunk s key
    cases hsd : (s.get key).2.SData with
    | none =>
      rw [netStore.Get_of_none _ _ _ _ _ hsd, netStore.startSearch_self _ _ _ rs _ _ hrs]
      refine ⟨?_, by simp⟩
      have hfr := netStore.Get_other s h key id now
      rw [netStore.Get_of_none _ _ _ _ _ hsd, netStore.startSearch_self _ _ _ rs _ _ hrs] at hfr
      refine netStore.InvDeadline_of_frame s _ key hinv hfr ?_
      intro c rs2 hget hreq _
      have hg := localStore.Get_Put_of_key (s.get key).1.localStore
        ⟨(s.get key).2.Key, (s.get key).2.SData, (s.get key).2.Size, (s.get key).2.source,
          some { rs with status := reqSearching }⟩ key hk
      rw [hg] at hget
      have hc := Option.some.inj hget
      subst hc
      have hr2 := Option.some.inj hreq
      subst hr2
      exact netStore.get_deadlines s key hinv hsd rs hrs
    | some d =>
      rw [netStore.Get_of_some _ _ _ _ _ d hsd]
      refine ⟨?_, by simp⟩
      refine netStore.InvDeadline_of_frame s _ key hinv
        (fun k hne => netStore.get_other s key k hne) ?_
      intro c rs2 hget _ hcn
      rw [netStore.get_Get s key] at hget
      have hc := Option.some.inj hget
      subst hc
      rw [hsd] at hcn; cases hcn
  | addStoreRequest h req now =>
    simp only [Op.next, Op.panic]
    cases hget : s.localStore.Get req.Key with
    | none =>
      cases hdec : decodeSize req.SData with
      | none =>
        have hA : s.addStoreRequest h req now
            = { self := s, sent := [], panic := some Panic.sliceBounds, locked := true } := by
          simp [netStore.addStoreRequest, hget, hdec]
        rw [hA]
        exact ⟨hinv, by simp⟩
      | some size =>
        have hA : s.addStoreRequest h req now
            = { s.put h ⟨req.Key, req.SData, size, req.peer, none⟩ now with locked := true } := by
          simp [netStore.addStoreRequest, hget, hdec]
        rw [hA]
        exact netStore.put_step_deadline s h _ now hinv (Or.inl rfl)
    | some chunk =>
      have hck : chunk.Key = req.Key := localStore.Get_key _ _ _ hget
      have hgc : s.localStore.Get chunk.Key = some chunk := by rw [hck]; exact hget
      cases hsd : chunk.SData with
      | some d =>
        have hA : s.addStoreRequest h req now
            = { self := s, sent := [], panic := none, locked := true } := by
          simp [netStore.addStoreRequest, hget, hsd]
        rw [hA]
        exact ⟨hinv, by simp⟩
      | none =>
        cases hdec : decodeSize req.SData with
        | none =>
          have hA : s.addStoreRequest h req now
              = { self := ⟨s.localStore.Put ⟨chunk.Key, req.SData, chunk.Size, chunk.source,
                    chunk.req⟩⟩,
                  sent := [], panic := some Panic.sliceBounds, locked := true } := by
            simp [netStore.addStoreRequest, hget, hsd, hdec, localStore.set]
          rw [hA]
          refine ⟨?_, by simp⟩
          refine netStore.InvDeadline_of_frame s _ req.Key hinv ?_ ?_
          · intro k hne
            refine localStore.Get_Put_other _ _ k ?_
            show chunk.Key ≠ k
            rw [hck]; exact hne
          · intro c rs hg hreq _
            have hg2 := localStore.Get_Put_of_key s.localStore
              ⟨chunk.Key, req.SData, chunk.Size, chunk.source, chunk.req⟩ req.Key hck
            simp only at hg
            rw [hg2] at hg
            have hc := Option.some.inj hg
            subst hc
            exact hinv req.Key chunk rs hget hreq hsd
        | some size =>
          have hA : s.addStoreRequest h req now
              = { s.put h ⟨chunk.Key, req.SData, size, req.peer, chunk.req⟩ now
                  with locked := true } := by
            simp [netStore.addStoreRequest, hget, hsd, hdec]
          rw [hA]
          exact netStore.put_step_deadline s h _ now hinv (Or.inr ⟨chunk, hgc, hsd, rfl⟩)
  | addRetrieveRequest h req now now2 =>
    simp only [Op.next, Op.panic]
    obtain ⟨hk, -, -⟩ := netStore.get_chunk s req.Key
    have hfr := netStore.addRetrieveRequest_other s h req now now2
    obtain ⟨rs, hrs, hc | hc | hc⟩ := netStore.addRetrieveRequest_cases s req
    · obtain ⟨d, hsd⟩ := hc
      rw [netStore.addRetrieveRequest_of_some s h req now now2 rs d hsd hrs] at hfr ⊢
      refine ⟨netStore.InvDeadline_of_frame s _ req.Key hinv hfr ?_, by simp⟩
      intro c rs2 hget _ hcn
      have hg := localStore.Get_Put_of_key (s.get req.Key).1.localStore
        ⟨(s.get req.Key).2.Key, (s.get req.Key).2.SData, (s.get req.Key).2.Size,
          (s.get req.Key).2.source,
          some (netStore.addRequester { rs with status := reqFound } req)⟩ req.Key hk
      simp only at hget
      rw [hg] at hget
      have hc := Option.some.inj hget
      subst hc
      simp only [hsd] at hcn
      cases hcn
    · obtain ⟨hsd, hst⟩ := hc
      have hd := netStore.addRequester_deadlines rs (askWithDeadline req now)
        (netStore.get_deadlines s req.Key hinv hsd rs hrs) (by simp [askWithDeadline])
      rw [netStore.addRetrieveRequest_of_none s h req now now2 rs hsd hrs hst] at hfr ⊢
      refine ⟨netStore.InvDeadline_of_frame s _ req.Key hinv hfr ?_, by simp⟩
      intro c rs2 hget hreq _
      have hg := localStore.Get_Put_of_key (s.get req.Key).1.localStore
        ⟨(s.get req.Key).2.Key, (s.get req.Key).2.SData, (s.get req.Key).2.Size,
          (s.get req.Key).2.source,
          some { netStore.addRequester rs (askWithDeadline req now) with
                 status := reqSearching }⟩ req.Key hk
      simp only at hget
      rw [hg] at hget
      have hc := Option.some.inj hget
      subst hc
      have hr2 := Option.some.inj hreq
      subst hr2
      exact hd
    · obtain ⟨hsd, hst⟩ := hc
      have hd := netStore.addRequester_deadlines rs (askWithDeadline req now)
        (netStore.get_deadlines s req.Key hinv hsd rs hrs) (by simp [askWithDeadline])
      rw [netStore.addRetrieveRequest_of_none_found s h req now now2 rs hsd hrs hst] at hfr ⊢
      refine ⟨netStore.InvDeadline_of_frame s _ req.Key hinv hfr ?_, by simp⟩
      intro c rs2 hget hreq _
      have hg := localStore.Get_Put_of_key (s.get req.Key).1.localStore
        ⟨(s.get req.Key).2.Key, (s.get req.Key).2.SData, (s.get req.Key).2.Size,
          (s.get req.Key).2.source,
          some (netStore.addRequester rs (askWithDeadline req now))⟩ req.Key hk
      simp only at hget
      rw [hg] at hget
      have hc := Option.some.inj hget
      subst hc
      have hr2 := Option.some.inj hreq
      subst hr2
      exact hd

theorem netStore.empty_InvDeadline : netStore.empty.InvDeadline := by
  intro k c rs hget
  simp [netStore.empty, localStore.Get] at hget

/-- A sequence of operations with no record in a `Put` keeps the invariant. -/
theorem runOps_deadline (ops : List Op) :
    ∀ s : netStore, s.InvDeadline → (∀ op ∈ ops, op.putNoRecord) →
      (runOps s ops).1.InvDeadline := by
  induction ops with
  | nil => intro s hinv _; exact hinv
  | cons op rest ih =>
    intro s hinv hops
    exact ih (op.next s) (Op.step_deadline s op hinv (hops op (List.mem_cons_self _ _))).1
      (fun o ho => hops o (List.mem_cons_of_mem _ ho))

/-- C20: in every store reached from the empty store by `Get`, `addRetrieveRequest`,
`addStoreRequest` and `Put` of chunks that carry no request record, every requester
recorded for a key without content has a deadline set; these are the records on which a
later `put` runs `propagateResponse`, so no further such operation panics on a nil
pointer: the comparison `req.timeout.After` never reads an absent deadline. -/
theorem C20_deadlines_set (ops : List Op) (hops : ∀ op ∈ ops, op.putNoRecord) :
    (∀ key c rs, (runOps netStore.empty ops).1.localStore.Get key = some c →
      c.SData = none → c.req = some rs →
      ∀ e ∈ rs.requesters, ∀ r ∈ e.2, r.timeout ≠ none) ∧
    (∀ op : Op, op.putNoRecord →
      op.panic (runOps netStore.empty ops).1 ≠ some Panic.nilDereference) := by
  have hinv := runOps_deadline ops netStore.empty netStore.empty_InvDeadline hops
  refine ⟨?_, ?_⟩
  · intro key c rs hget hsd hreq
    exact hinv key c rs hget hreq hsd
  · intro op hop
    exact (Op.step_deadline _ op hinv hop).2

/-- C20, after a `Get` miss and a retrieve request of peer A (the store `exS2`): the
requester recorded for the key has a deadline, and `Put(exChunk)`, which propagates the
content to A, does not panic. -/
theorem C20_deadlines_set_witness :
    (runOps netStore.empty
      [Op.Get exHive exKey 5 0, Op.addRetrieveRequest exHive exAsk 1 1]).1 = exS2 ∧
    (∀ e ∈ exS2.requestersOf exKey, ∀ r ∈ e.2, r.timeout ≠ none) ∧
    (exS2.Put exHive exChunk 4).panic ≠ some Panic.nilDereference ∧
    (exS2.Put exHive exChunk 4).panic = none :=
  ⟨by decide,
   (C20_deadlines_set [Op.Get exHive exKey 5 0, Op.addRetrieveRequest exHive exAsk 1 1]
      (by
        intro op hop
        simp only [List.mem_cons, List.mem_singleton, List.not_mem_nil, or_false] at hop
        rcases hop with rfl | rfl <;> trivial)).1 exKey exAsked
      { key := [], status := 0, C := false,
        requesters := [(7, [{ exAsk with timeout := some 10000000001 }])] }
      (by decide) rfl rfl,
   (C20_deadlines_set [Op.Get exHive exKey 5 0, Op.addRetrieveRequest exHive exAsk 1 1]
      (by
        intro op hop
        simp only [List.mem_cons, List.mem_singleton, List.not_mem_nil, or_false] at hop
        rcases hop with rfl | rfl <;> trivial)).2 (Op.Put exHive exChunk 4) rfl,
   by decide⟩

end bzz
